import Mathlib

/-!
# Schema composition helpers of the Vault provider

A shallow embedding of `internal/provider/schema_util.go`:

* A Go map is `GoMap`: the nil map, or an allocated map with its entries.  The
  entries are an association list with pairwise distinct keys, and the order
  of the list is the order in which a `range` loop visits them, so a statement
  over every list covers every iteration order.  Reading a nil map finds no
  key; storing into a nil map panics.
* A function that mutates its argument in place and may panic returns an
  `Outcome`: the final state together with the panic value, if any; when it
  also returns a value it returns a `Call`.
* `interface{}` values are the type `Iface`.
* A pointer to a resource is the resource it points to; every map entry holds
  a resource of its own.
* The diff context of the SDK is its three operations `HasChange`, `GetChange`
  and `ForceNew`; the calls of `ForceNew` are recorded in the diff, and a
  failed type assertion is a panic.
-/

namespace Provider

/-! ## Go values -/

/-- A Go `interface{}` value as it occurs in raw state and in schema defaults. -/
inductive Iface where
  | nil
  | bool (b : Bool)
  | num (n : Int)
  | str (s : String)
  | list (xs : List Iface)
  | obj (kvs : List (String × Iface))

/-- The Go comparison `v == nil` on an interface value. -/
def Iface.isNil : Iface → Bool
  | .nil => true
  | _ => false

/-- The Go comparison `v == s` of an interface value with a string: true when
`v` holds a string equal to `s`. -/
def Iface.eqStr : Iface → String → Bool
  | .str t, s => t == s
  | _, _ => false

/-- The Go type assertion `v.(string)`; `none` when it fails. -/
def Iface.assertString : Iface → Option String
  | .str t => some t
  | _ => none

/-- The text `fmt` prints for the operand `v` under the verb `%s`: a string is
printed as it is; what is printed for an operand of another type is given by
`verbS`. -/
def sprintS (verbS : Iface → String) : Iface → String
  | .str t => t
  | v => verbS v

/-- Whether a string begins with the path separator "/". -/
def beginsWithSlash (s : String) : Bool := s.data.head? == some '/'

/-- A Go `error`: `none` is the nil error. -/
abbrev GoError := Option String

/-- A `context.Context`; the functions of this file never read it. -/
structure Context where
  done : Bool

/-! ## Go maps with string keys -/

/-- The entries of an allocated Go `map[string]V`, in iteration order. -/
abbrev Entries (V : Type) := List (String × V)

namespace Entries

variable {V : Type}

/-- The keys of the entries. -/
def keys (es : Entries V) : List String := es.map Prod.fst

/-- The entry of the key `k`, if there is one. -/
def lookup : Entries V → String → Option V
  | [], _ => none
  | (k', v) :: rest, k => if k' = k then some v else lookup rest k

/-- Whether the key `k` has an entry. -/
def has (es : Entries V) (k : String) : Bool := (lookup es k).isSome

/-- The entries after `d[k] = v` on an allocated map: the entry of `k` is
overwritten, or one is added. -/
def store : Entries V → String → V → Entries V
  | [], k, v => [(k, v)]
  | (k', v') :: rest, k, v =>
    if k' = k then (k, v) :: rest else (k', v') :: store rest k v

end Entries

/-- A Go `map[string]V`: the nil map (the zero value of the type), or an
allocated map (a map literal or `make`) with its entries. -/
inductive GoMap (V : Type) where
  | nil
  | alloc (es : Entries V)

namespace GoMap

variable {V : Type}

/-- The entries a `range` loop visits: none for the nil map. -/
def entries : GoMap V → Entries V
  | nil => []
  | alloc es => es

/-- The Go comparison `d == nil` on a map. -/
def isNil : GoMap V → Bool
  | nil => true
  | alloc _ => false

/-- The key set of a map. -/
def keys (d : GoMap V) : List String := Entries.keys (entries d)

/-- The type invariant of a Go map: no key occurs twice. -/
def WF (d : GoMap V) : Prop := (keys d).Nodup

instance (d : GoMap V) : Decidable (WF d) := inferInstanceAs (Decidable (keys d).Nodup)

/-- The Go expression `v, ok := d[k]`; `none` stands for `ok == false`.  A nil
map has no key. -/
def lookup (d : GoMap V) (k : String) : Option V := Entries.lookup (entries d) k

/-- The `ok` result of `_, ok := d[k]`. -/
def has (d : GoMap V) (k : String) : Bool := (lookup d k).isSome

/-- The Go expression `d[k]` on a `map[string]interface{}`: the zero value
(nil) when the key is absent. -/
def index (d : GoMap Iface) (k : String) : Iface := (lookup d k).getD Iface.nil

end GoMap

/-! ## Panics and outcomes -/

/-- The values this file panics with.
`schemaFieldExists k` is
`fmt.Sprintf("cannot add schema field %q,  already exists in the Schema map", k)`,
`resourceExists n` is
`fmt.Sprintf("cannot add resource, Resource map already contains %q", n)`,
`typeAssertion t` is the runtime error of a failed type assertion `v.(t)`,
`nilMapAssignment` is the runtime error "assignment to entry in nil map",
`raised msg` is a value a function handed in by the caller panics with. -/
inductive PanicValue where
  | schemaFieldExists (k : String)
  | resourceExists (n : String)
  | typeAssertion (t : String)
  | nilMapAssignment
  | raised (msg : String)
  deriving DecidableEq, Repr

/-- The result of running a function that mutates a state of type `σ` in place:
either it returns with the state `st`, or it panics with value `p`, leaving
the state as it was when the panic was raised. -/
inductive Outcome (σ : Type) where
  | done (st : σ)
  | panicked (p : PanicValue) (st : σ)

/-- The result of a call that mutates a state of type `σ` in place and returns
a value of type `α`: either it returns `val` with the state `st`, or it panics
with value `p`, leaving the state as it was when the panic was raised. -/
inductive Call (σ α : Type) where
  | returned (st : σ) (val : α)
  | panicked (p : PanicValue) (st : σ)

/-- The state a call left behind, whether it panicked or not. -/
def Call.state {σ α : Type} : Call σ α → σ
  | returned st _ => st
  | panicked _ st => st

/-- The value a call returned, if it returned. -/
def Call.value? {σ α : Type} : Call σ α → Option α
  | returned _ v => some v
  | panicked _ _ => none

/-- Whether the call ended in a panic. -/
def Call.isPanic {σ α : Type} : Call σ α → Bool
  | returned _ _ => false
  | panicked _ _ => true

/-- One call after another: the second call is made with the state and the
value the first one returned; a panic of the first call ends the run. -/
def Call.andThen {σ α β : Type} (c : Call σ α) (next : σ → α → Call σ β) : Call σ β :=
  match c with
  | returned st v => next st v
  | panicked p st => panicked p st

namespace Outcome

variable {σ τ : Type}

/-- Whether the run ended in a panic. -/
def isPanic : Outcome σ → Bool
  | done _ => false
  | panicked _ _ => true

/-- The state the run left behind, whether it panicked or not. -/
def state : Outcome σ → σ
  | done st => st
  | panicked _ st => st

/-- Transport the state of an outcome. -/
def mapState (g : σ → τ) : Outcome σ → Outcome τ
  | done st => done (g st)
  | panicked p st => panicked p (g st)

end Outcome

/-- The Go statement `d[k] = v`: on an allocated map the entry of `k` is
overwritten, or one is added; on the nil map it panics. -/
def GoMap.store {V : Type} : GoMap V → String → V → Outcome (GoMap V)
  | GoMap.nil, _, _ => Outcome.panicked PanicValue.nilMapAssignment GoMap.nil
  | GoMap.alloc es, k, v => Outcome.done (GoMap.alloc (Entries.store es k v))

/-! ## The SDK's schema types -/

/-- The SDK's `schema.ValueType`. -/
inductive ValueType where
  | TypeInvalid | TypeBool | TypeInt | TypeFloat | TypeString | TypeList | TypeMap | TypeSet
  deriving DecidableEq, Repr

/-- Modelled from the spec: the SDK's `schema.Schema` (the spec's Field
Definition), a descriptor of one field with its type, optionality, default,
description, validation function and force-replace flag.  Fields a literal
does not set have Go's zero value. -/
structure Schema where
  Type_ : ValueType := ValueType.TypeInvalid
  Optional : Bool := false
  Required : Bool := false
  Computed : Bool := false
  ForceNew : Bool := false
  Default : Iface := Iface.nil
  Description : String := ""
  ValidateFunc : Option (Iface → String → List String × List String) := none

/-- Modelled from the spec: the SDK's `cty.Type` obtained by
`CoreConfigSchema().ImpliedType()`, the expected shape of state at a version;
it is kept as the field map it is computed from. -/
structure CtyType where
  impliedBy : GoMap Schema

/-- The SDK's `schema.StateUpgradeFunc`; the state is the raw state map the
function is handed, the value is the map and the error it returns. -/
abbrev StateUpgradeFunc :=
  Context → GoMap Iface → Iface → Call (GoMap Iface) (GoMap Iface × GoError)

/-- Modelled from the spec: the SDK's `schema.StateUpgrader`, a triple of source
version, expected shape of state at that version, and transform function. -/
structure StateUpgrader where
  Version : Int
  Type_ : CtyType
  Upgrade : StateUpgradeFunc

/-- Modelled from the spec: the SDK's `schema.Resource` (the spec's Resource
Definition), bundling a field map, a schema version and a list of state
upgraders, with a description and a deprecation message as further data.
Fields a literal does not set have Go's zero value: the field map is nil. -/
structure Resource where
  Schema : GoMap Schema := GoMap.nil
  SchemaVersion : Int := 0
  StateUpgraders : List StateUpgrader := []
  Description : String := ""
  DeprecationMessage : String := ""

/-- Modelled from the spec: the constant `consts.FieldDisableRemount`. -/
def FieldDisableRemount : String := "disable_remount"

/-- Modelled from the spec: the constant `consts.FieldNamespace`. -/
def FieldNamespace : String := "namespace"

/-! ## schema_util.go -/

/-- The function `mustAddSchema(k, s, d)`. -/
def mustAddSchema (k : String) (s : Schema) (d : GoMap Schema) : Outcome (GoMap Schema) :=
  if GoMap.has d k then
    Outcome.panicked (PanicValue.schemaFieldExists k) d
  else
    GoMap.store d k s

/-- The loop `for k, s := range m { mustAddSchema(k, s, d) }`, visiting the
entries of `m` in list order. -/
def mustAddSchemaRange : List (String × Schema) → GoMap Schema → Outcome (GoMap Schema)
  | [], d => Outcome.done d
  | (k, s) :: rest, d =>
    match mustAddSchema k s d with
    | Outcome.done d' => mustAddSchemaRange rest d'
    | Outcome.panicked p d' => Outcome.panicked p d'

/-- The function `MustAddSchema(r, m)`; the state is the resource `r` points to. -/
def MustAddSchema (r : Resource) (m : GoMap Schema) : Outcome Resource :=
  Outcome.mapState (fun d => { r with Schema := d })
    (mustAddSchemaRange (GoMap.entries m) r.Schema)

/-- The statement `if f != nil { r = f(r) }` of `MustAddSchemaResource`;
`f = none` is the nil function, and a transform may panic instead of
returning. -/
def applyTransform (f : Option (Resource → Outcome Resource)) (r : Resource) :
    Outcome Resource :=
  match f with
  | some g => g r
  | none => Outcome.done r

/-- The loop of `MustAddSchemaResource`, visiting the entries of `s` in list
order: the transform runs first, then the collision test, then the store. -/
def mustAddSchemaResourceRange (f : Option (Resource → Outcome Resource)) :
    List (String × Resource) → GoMap Resource → Outcome (GoMap Resource)
  | [], d => Outcome.done d
  | (n, r) :: rest, d =>
    match applyTransform f r with
    | Outcome.panicked p _ => Outcome.panicked p d
    | Outcome.done r' =>
      if GoMap.has d n then
        Outcome.panicked (PanicValue.resourceExists n) d
      else
        match GoMap.store d n r' with
        | Outcome.done d' => mustAddSchemaResourceRange f rest d'
        | Outcome.panicked p d' => Outcome.panicked p d'

/-- The function `MustAddSchemaResource(s, d, f)`; the state is the destination
map `d`. -/
def MustAddSchemaResource (s : GoMap Resource) (d : GoMap Resource)
    (f : Option (Resource → Outcome Resource)) : Outcome (GoMap Resource) :=
  mustAddSchemaResourceRange f (GoMap.entries s) d

/-- The function `SecretsAuthMountDisableRemountResourceV0()`. -/
def SecretsAuthMountDisableRemountResourceV0 : Resource :=
  { Schema := GoMap.alloc [(FieldDisableRemount,
      { Type_ := ValueType.TypeBool
        Optional := true
        Default := Iface.bool false
        Description := "If set, opts out of mount migration " ++ "on path updates." })] }

/-- The function `SecretsAuthMountDisableRemountUpgradeV0(ctx, rawState, meta)`;
the state is the map `rawState`, which is also the map returned. -/
def SecretsAuthMountDisableRemountUpgradeV0 (_ctx : Context) (rawState : GoMap Iface)
    (_meta : Iface) : Call (GoMap Iface) (GoMap Iface × GoError) :=
  if (GoMap.index rawState FieldDisableRemount).isNil then
    match GoMap.store rawState FieldDisableRemount (Iface.bool false) with
    | Outcome.done st => Call.returned st (st, none)
    | Outcome.panicked p st => Call.panicked p st
  else
    Call.returned rawState (rawState, none)

/-- The function `defaultDisableRemountStateUpgraders()`. -/
def defaultDisableRemountStateUpgraders : List StateUpgrader :=
  [{ Version := 0
     Type_ := { impliedBy := SecretsAuthMountDisableRemountResourceV0.Schema }
     Upgrade := SecretsAuthMountDisableRemountUpgradeV0 }]

/-- The function `MustAddMountMigrationSchema(r, customStateUpgrade)`. -/
def MustAddMountMigrationSchema (r : Resource) (customStateUpgrade : Bool) : Outcome Resource :=
  match MustAddSchema r (GoMap.alloc [(FieldDisableRemount,
      { Type_ := ValueType.TypeBool
        Optional := true
        Default := Iface.bool false
        Description := "If set, opts out of mount migration " ++ "on path updates." })]) with
  | Outcome.panicked p r' => Outcome.panicked p r'
  | Outcome.done r' =>
    if !customStateUpgrade then
      Outcome.done { r' with
        StateUpgraders := defaultDisableRemountStateUpgraders
        SchemaVersion := 1 }
    else
      Outcome.done r'

/-! ## The diff context and the provider context -/

/-- Modelled from the spec: the SDK's `schema.ResourceDiff` (the spec's Diff
Context), which exposes whether a named field changed, the old and new values
of a field, and a method that marks a field as requiring replacement.
`forceNewCalls` is the list of the fields `ForceNew` has been called on, in
call order. -/
structure ResourceDiff where
  hasChange : String → Bool
  getChange : String → Iface × Iface
  forceNewCalls : List String := []

/-- The SDK method `(*ResourceDiff).HasChange(key)`. -/
def ResourceDiff.HasChange (d : ResourceDiff) (key : String) : Bool := d.hasChange key

/-- The SDK method `(*ResourceDiff).GetChange(key)`: the old and the new value. -/
def ResourceDiff.GetChange (d : ResourceDiff) (key : String) : Iface × Iface :=
  d.getChange key

/-- The SDK method `(*ResourceDiff).ForceNew(key)`: the call is recorded in the
diff; the method returns an error when the key has no change (a key the schema
does not know has none), and otherwise marks the key and returns nil. -/
def ResourceDiff.ForceNew (d : ResourceDiff) (key : String) : ResourceDiff × GoError :=
  ({ d with forceNewCalls := d.forceNewCalls ++ [key] },
    if d.HasChange key then none else some ("ForceNew: No changes for " ++ key))

/-- Modelled from the spec: the Vault API client, of which the configured
(parent) namespace is kept. -/
structure Client where
  ns : String

/-- The client method `Namespace()`. -/
def Client.Namespace (c : Client) : String := c.ns

/-- Modelled from the spec: the repository's `ProviderMeta`, the provider
context from which the configured client is obtained. -/
structure ProviderMeta where
  client : Client

/-- The method `(*ProviderMeta).GetClient()`. -/
def ProviderMeta.GetClient (p : ProviderMeta) : Client := p.client

/-- The `meta interface{}` argument of a diff callback: a `*ProviderMeta`, or a
value of another dynamic type. -/
inductive Meta where
  | providerMeta (p : ProviderMeta)
  | other (v : Iface)

/-- The SDK's `schema.CustomizeDiffFunc`; the state is the diff the callback
is handed. -/
abbrev CustomizeDiffFunc := Context → ResourceDiff → Meta → Call ResourceDiff GoError

/-- The function `NamespacePathCustomizeDiffFunc()`: the callback it returns.
`verbS` is what `fmt` prints under `%s` for an operand that is not a string.
The four `fmt.Printf` calls write to standard output only and are left out. -/
def NamespacePathCustomizeDiffFunc (verbS : Iface → String) : CustomizeDiffFunc :=
  fun _ctx diff meta =>
    let field := FieldNamespace
    if !diff.HasChange field then
      Call.returned diff none
    else
      let (o, n) := diff.GetChange field
      if o.eqStr "" then
        Call.returned diff none
      else
        match meta with
        | Meta.other _ => Call.panicked (PanicValue.typeAssertion "*ProviderMeta") diff
        | Meta.providerMeta pm =>
          let client := pm.GetClient
          let parentNS := client.Namespace
          let constructedNamespace := parentNS ++ "/" ++ sprintS verbS n
          match o.assertString with
          | none => Call.panicked (PanicValue.typeAssertion "string") diff
          | some os =>
            if os = constructedNamespace then
              Call.returned diff none
            else
              let (diff', err) := diff.ForceNew field
              Call.returned diff' err

/-- Modelled from the spec: the repository's validator
`ValidateNoLeadingTrailingSlashes`, which rejects a value with a leading or a
trailing path separator; it returns the warnings and the errors. -/
def ValidateNoLeadingTrailingSlashes (i : Iface) (k : String) : List String × List String :=
  match i with
  | Iface.str v =>
    if beginsWithSlash v || v.data.getLast? == some '/' then
      ([], ["invalid value " ++ v ++ " for " ++ k ++ ", contains leading/trailing /"])
    else ([], [])
  | _ => ([], ["value for " ++ k ++ " must be a string"])

/-- The function `GetNamespaceSchema()`. -/
def GetNamespaceSchema : GoMap Schema :=
  GoMap.alloc [(FieldNamespace,
    { Type_ := ValueType.TypeString
      Optional := true
      ForceNew := true
      Description := "Target namespace. (requires Enterprise)"
      ValidateFunc := some ValidateNoLeadingTrailingSlashes })]

/-- The function `MustAddNamespaceSchema(d)`; the state is the map `d`. -/
def MustAddNamespaceSchema (d : GoMap Schema) : Outcome (GoMap Schema) :=
  mustAddSchemaRange (GoMap.entries GetNamespaceSchema) d

/-! ## Proof devices -/

/-- The field definition that `MustAddMountMigrationSchema` adds under the name
`consts.FieldDisableRemount`, as a value of its own. -/
def disableRemountSchema : Schema :=
  { Type_ := ValueType.TypeBool
    Optional := true
    Default := Iface.bool false
    Description := "If set, opts out of mount migration " ++ "on path updates." }

/-- A proof device, not a function of the source: a merge loop on the entries
of an allocated destination with a transform that returns, with the panic
value `mk` and the transform `g` as parameters. -/
def mergeRange {V : Type} (mk : String → PanicValue) (g : V → V) :
    List (String × V) → Entries V → Outcome (Entries V)
  | [], d => Outcome.done d
  | (k, v) :: rest, d =>
    if Entries.has d k then Outcome.panicked (mk k) d
    else mergeRange mk g rest (Entries.store d k (g v))

/-- A proof device, not a function of the source: the common shape of the two
merge loops of the source, with the panic value `mk` and the transform `g` as
parameters. -/
def rangeLoop {V : Type} (mk : String → PanicValue) (g : V → Outcome V) :
    List (String × V) → GoMap V → Outcome (GoMap V)
  | [], d => Outcome.done d
  | (k, v) :: rest, d =>
    match g v with
    | Outcome.panicked p _ => Outcome.panicked p d
    | Outcome.done v' =>
      if GoMap.has d k then Outcome.panicked (mk k) d
      else
        match GoMap.store d k v' with
        | Outcome.done d' => rangeLoop mk g rest d'
        | Outcome.panicked p d' => Outcome.panicked p d'

/-! ## Facts about the entries of a map -/

namespace Entries

variable {V : Type}

theorem lookup_eq_none_iff (d : Entries V) (k : String) :
    lookup d k = none ↔ k ∉ keys d := by
  induction d with
  | nil => simp [lookup, keys]
  | cons e rest ih =>
    obtain ⟨k', v⟩ := e
    by_cases h : k' = k
    · simp [lookup, keys, h]
    · have h' : ¬ k = k' := fun e => h e.symm
      simpa [lookup, keys, h, h'] using ih

theorem has_iff_mem_keys (d : Entries V) (k : String) :
    has d k = true ↔ k ∈ keys d := by
  unfold has
  rw [Option.isSome_iff_ne_none, Ne, lookup_eq_none_iff, not_not]

theorem has_eq_false_iff (d : Entries V) (k : String) :
    has d k = false ↔ k ∉ keys d := by
  rw [← has_iff_mem_keys]; simp

theorem lookup_store_self (d : Entries V) (k : String) (v : V) :
    lookup (store d k v) k = some v := by
  induction d with
  | nil => simp [store, lookup]
  | cons e rest ih =>
    obtain ⟨k', v'⟩ := e
    by_cases h : k' = k
    · simp [store, lookup, h]
    · simp [store, lookup, h, ih]

theorem lookup_store_ne (d : Entries V) {k k' : String} (v : V) (h : k' ≠ k) :
    lookup (store d k v) k' = lookup d k' := by
  induction d with
  | nil =>
    have h' : ¬ k = k' := fun e => h e.symm
    simp [store, lookup, h']
  | cons e rest ih =>
    obtain ⟨k0, v0⟩ := e
    by_cases h0 : k0 = k
    · subst h0
      have h' : ¬ k0 = k' := fun e => h e.symm
      simp [store, lookup, h']
    · by_cases h1 : k0 = k'
      · subst h1
        simp [store, lookup, h0]
      · simp [store, lookup, h0, h1, ih]

theorem mem_keys_store (d : Entries V) (k k' : String) (v : V) :
    k' ∈ keys (store d k v) ↔ k' = k ∨ k' ∈ keys d := by
  rw [← has_iff_mem_keys, ← has_iff_mem_keys]
  unfold has
  by_cases h : k' = k
  · subst h
    simp [lookup_store_self]
  · simp [lookup_store_ne d v h, h]

theorem keys_store_of_not_mem (d : Entries V) (k : String) (v : V) (h : k ∉ keys d) :
    keys (store d k v) = keys d ++ [k] := by
  induction d with
  | nil => simp [store, keys]
  | cons e rest ih =>
    obtain ⟨k', v'⟩ := e
    have hk : ¬ k' = k := by
      intro e; apply h; simp [keys, e]
    have hr : k ∉ keys rest := by
      intro hm; apply h; simp only [keys, List.map_cons, List.mem_cons]; right; exact hm
    have := ih hr
    simp only [keys] at this
    simp [store, keys, hk, this]

theorem nodup_keys_store (d : Entries V) (k : String) (v : V) (hd : (keys d).Nodup) :
    (keys (store d k v)).Nodup := by
  induction d with
  | nil => simp [store, keys]
  | cons e rest ih =>
    obtain ⟨k', v'⟩ := e
    have hd' : k' ∉ keys rest ∧ (keys rest).Nodup := by
      simpa [keys] using hd
    by_cases h : k' = k
    · subst h
      simpa [store, keys] using hd
    · have hn : k' ∉ keys (store rest k v) := by
        rw [mem_keys_store]; push_neg; exact ⟨h, hd'.1⟩
      have := ih hd'.2
      simp only [store, h, if_false, keys, List.map_cons, List.nodup_cons]
      exact ⟨hn, this⟩

theorem lookup_some_mem_keys {d : Entries V} {k : String} {v : V} (h : lookup d k = some v) :
    k ∈ keys d := by
  by_contra hn
  rw [← lookup_eq_none_iff] at hn
  rw [hn] at h
  exact Option.noConfusion h

end Entries

/-! ## Facts about the merge loops -/

section MergeRange

variable {V : Type} (mk : String → PanicValue) (g : V → V)

theorem mergeRange_done {l : List (String × V)} {d d' : Entries V}
    (h : mergeRange mk g l d = Outcome.done d') :
    (Entries.keys l).Nodup ∧ (∀ k ∈ Entries.keys l, k ∉ Entries.keys d) ∧
    (∀ k v, Entries.lookup l k = some v → Entries.lookup d' k = some (g v)) ∧
    (∀ k, k ∉ Entries.keys l → Entries.lookup d' k = Entries.lookup d k) := by
  induction l generalizing d with
  | nil =>
    simp only [mergeRange, Outcome.done.injEq] at h
    subst h
    simp [Entries.keys, Entries.lookup]
  | cons e rest ih =>
    obtain ⟨k0, v0⟩ := e
    by_cases hk : Entries.has d k0 = true
    · simp [mergeRange, hk] at h
    · simp only [mergeRange, hk, Bool.false_eq_true, if_false] at h
      obtain ⟨hnd, hdisj, hnew, hold⟩ := ih h
      have hk0d : k0 ∉ Entries.keys d := by
        rw [← Entries.has_iff_mem_keys]; exact hk
      have hk0r : k0 ∉ Entries.keys rest := by
        intro hm
        exact hdisj k0 hm ((Entries.mem_keys_store d k0 k0 (g v0)).2 (Or.inl rfl))
      refine ⟨?_, ?_, ?_, ?_⟩
      · simp only [Entries.keys, List.map_cons, List.nodup_cons]
        exact ⟨hk0r, hnd⟩
      · intro k hkm
        simp only [Entries.keys, List.map_cons, List.mem_cons] at hkm
        rcases hkm with rfl | hkm
        · exact hk0d
        · intro hkd
          exact hdisj k hkm ((Entries.mem_keys_store d k0 k (g v0)).2 (Or.inr hkd))
      · intro k v hl
        by_cases hkk : k0 = k
        · subst hkk
          simp only [Entries.lookup, if_true, Option.some.injEq] at hl
          subst hl
          rw [hold k0 hk0r, Entries.lookup_store_self]
        · simp only [Entries.lookup, hkk, if_false] at hl
          exact hnew k v hl
      · intro k hkm
        have hne : k ≠ k0 := by
          intro e; apply hkm; simp [Entries.keys, e]
        have hkr : k ∉ Entries.keys rest := by
          intro hm; apply hkm
          simp only [Entries.keys, List.map_cons, List.mem_cons]; right; exact hm
        rw [hold k hkr, Entries.lookup_store_ne d (g v0) hne]

theorem mergeRange_of_disjoint {l : List (String × V)} {d : Entries V}
    (hnd : (Entries.keys l).Nodup) (hdisj : ∀ k ∈ Entries.keys l, k ∉ Entries.keys d) :
    ∃ d', mergeRange mk g l d = Outcome.done d' := by
  induction l generalizing d with
  | nil => exact ⟨d, rfl⟩
  | cons e rest ih =>
    obtain ⟨k0, v0⟩ := e
    simp only [Entries.keys, List.map_cons, List.nodup_cons] at hnd
    have hk : Entries.has d k0 = false := by
      rw [Entries.has_eq_false_iff]
      exact hdisj k0 (by simp [Entries.keys])
    simp only [mergeRange, hk, Bool.false_eq_true, if_false]
    apply ih hnd.2
    intro k hkm hks
    rcases (Entries.mem_keys_store d k0 k (g v0)).1 hks with rfl | hkd
    · exact hnd.1 hkm
    · exact hdisj k (by simp only [Entries.keys, List.map_cons, List.mem_cons]; right; exact hkm) hkd

theorem mergeRange_panicked {l : List (String × V)} {d st : Entries V} {p : PanicValue}
    (h : mergeRange mk g l d = Outcome.panicked p st) :
    ∃ k, p = mk k ∧ k ∈ Entries.keys l ∧ k ∈ Entries.keys st ∧
      ((Entries.keys l).Nodup → k ∈ Entries.keys d) := by
  induction l generalizing d with
  | nil => simp [mergeRange] at h
  | cons e rest ih =>
    obtain ⟨k0, v0⟩ := e
    by_cases hk : Entries.has d k0 = true
    · simp only [mergeRange, hk, if_true, Outcome.panicked.injEq] at h
      obtain ⟨hp, hst⟩ := h
      subst hst
      have hm : k0 ∈ Entries.keys d := (Entries.has_iff_mem_keys d k0).1 hk
      exact ⟨k0, hp.symm, by simp [Entries.keys], hm, fun _ => hm⟩
    · simp only [mergeRange, hk, Bool.false_eq_true, if_false] at h
      obtain ⟨k, hp, hkr, hks, hkd⟩ := ih h
      refine ⟨k, hp, ?_, hks, ?_⟩
      · simp only [Entries.keys, List.map_cons, List.mem_cons]; right; exact hkr
      · intro hnd
        simp only [Entries.keys, List.map_cons, List.nodup_cons] at hnd
        rcases (Entries.mem_keys_store d k0 k (g v0)).1 (hkd hnd.2) with rfl | hkd'
        · exact absurd hkr hnd.1
        · exact hkd'

theorem mergeRange_isPanic_iff {l : List (String × V)} {d : Entries V}
    (hnd : (Entries.keys l).Nodup) :
    (mergeRange mk g l d).isPanic = true ↔ ∃ k, k ∈ Entries.keys l ∧ k ∈ Entries.keys d := by
  constructor
  · intro hp
    cases hr : mergeRange mk g l d with
    | done d' => rw [hr] at hp; simp [Outcome.isPanic] at hp
    | panicked p st =>
      obtain ⟨k, -, hkl, -, hkd⟩ := mergeRange_panicked mk g hr
      exact ⟨k, hkl, hkd hnd⟩
  · rintro ⟨k, hkl, hkd⟩
    cases hr : mergeRange mk g l d with
    | done d' => exact absurd hkd ((mergeRange_done mk g hr).2.1 k hkl)
    | panicked p st => rfl

end MergeRange

theorem Entries.store_of_not_mem {V : Type} (d : Entries V) (k : String) (v : V)
    (h : k ∉ Entries.keys d) : Entries.store d k v = d ++ [(k, v)] := by
  induction d with
  | nil => rfl
  | cons e rest ih =>
    obtain ⟨k0, v0⟩ := e
    have hk : ¬ k0 = k := by
      intro e; apply h; simp [Entries.keys, e]
    have hr : k ∉ Entries.keys rest := by
      intro hm; apply h
      simp only [Entries.keys, List.map_cons, List.mem_cons]; right; exact hm
    simp [Entries.store, hk, ih hr]

theorem Entries.lookup_eq_some_iff_mem {V : Type} {l : Entries V} (hl : (Entries.keys l).Nodup)
    (k : String) (v : V) : Entries.lookup l k = some v ↔ (k, v) ∈ l := by
  induction l with
  | nil => simp [Entries.lookup]
  | cons e rest ih =>
    obtain ⟨k0, v0⟩ := e
    simp only [Entries.keys, List.map_cons, List.nodup_cons] at hl
    by_cases hk : k0 = k
    · subst hk
      simp only [Entries.lookup, if_true, Option.some.injEq, List.mem_cons, Prod.mk.injEq,
        true_and]
      constructor
      · intro e; exact Or.inl e.symm
      · rintro (e | hm)
        · exact e.symm
        · exact absurd (List.mem_map_of_mem Prod.fst hm) hl.1
    · have hk2 : ¬ k = k0 := fun e => hk e.symm
      simp only [Entries.lookup, hk, if_false, List.mem_cons, Prod.mk.injEq, hk2, false_and,
        false_or]
      exact ih hl.2

theorem Entries.lookup_perm {V : Type} {l1 l2 : Entries V} (h : List.Perm l1 l2)
    (hl : (Entries.keys l1).Nodup) (k : String) : Entries.lookup l1 k = Entries.lookup l2 k := by
  have hl2 : (Entries.keys l2).Nodup := ((h.map Prod.fst).nodup_iff).1 hl
  cases h1 : Entries.lookup l1 k with
  | some v =>
    have := (Entries.lookup_eq_some_iff_mem hl2 k v).2
      (h.mem_iff.1 ((Entries.lookup_eq_some_iff_mem hl k v).1 h1))
    rw [this]
  | none =>
    cases h2 : Entries.lookup l2 k with
    | none => rfl
    | some v =>
      have := (Entries.lookup_eq_some_iff_mem hl k v).2
        (h.mem_iff.2 ((Entries.lookup_eq_some_iff_mem hl2 k v).1 h2))
      rw [this] at h1
      exact Option.noConfusion h1

theorem mergeRange_done_eq {V : Type} (mk : String → PanicValue) (g : V → V)
    {l : List (String × V)} {d d' : Entries V} (h : mergeRange mk g l d = Outcome.done d') :
    d' = d ++ l.map (fun e => (e.1, g e.2)) := by
  induction l generalizing d with
  | nil =>
    simp only [mergeRange, Outcome.done.injEq] at h
    simp [h]
  | cons e rest ih =>
    obtain ⟨k0, v0⟩ := e
    by_cases hk : Entries.has d k0 = true
    · simp [mergeRange, hk] at h
    · simp only [mergeRange, hk, Bool.false_eq_true, if_false] at h
      have hk0 : k0 ∉ Entries.keys d := by
        rw [← Entries.has_iff_mem_keys]; exact hk
      rw [ih h, Entries.store_of_not_mem d k0 (g v0) hk0]
      simp

theorem mergeRange_panicked_split {V : Type} (mk : String → PanicValue) (g : V → V)
    {l : List (String × V)} {d st : Entries V} {p : PanicValue}
    (h : mergeRange mk g l d = Outcome.panicked p st) :
    ∃ pre k v post, l = pre ++ (k, v) :: post ∧ p = mk k ∧
      mergeRange mk g pre d = Outcome.done st ∧ k ∈ Entries.keys st := by
  induction l generalizing d with
  | nil => simp [mergeRange] at h
  | cons e rest ih =>
    obtain ⟨k0, v0⟩ := e
    by_cases hk : Entries.has d k0 = true
    · simp only [mergeRange, hk, if_true, Outcome.panicked.injEq] at h
      obtain ⟨hp, hst⟩ := h
      subst hst
      exact ⟨[], k0, v0, rest, rfl, hp.symm, rfl, (Entries.has_iff_mem_keys d k0).1 hk⟩
    · simp only [mergeRange, hk, Bool.false_eq_true, if_false] at h
      obtain ⟨pre, k, v, post, hl, hp, hrun, hks⟩ := ih h
      refine ⟨(k0, v0) :: pre, k, v, post, by rw [hl]; rfl, hp, ?_, hks⟩
      simp only [mergeRange, hk, Bool.false_eq_true, if_false]
      exact hrun

theorem mergeRange_done_iff {V : Type} (mk : String → PanicValue) (g : V → V)
    (l : List (String × V)) (d : Entries V) :
    (mergeRange mk g l d).isPanic = false ↔
      (Entries.keys l).Nodup ∧ ∀ k, k ∈ Entries.keys l → k ∉ Entries.keys d := by
  constructor
  · intro hp
    cases hr : mergeRange mk g l d with
    | done d' =>
      obtain ⟨hnd, hdisj, -, -⟩ := mergeRange_done mk g hr
      exact ⟨hnd, hdisj⟩
    | panicked p st => rw [hr] at hp; simp [Outcome.isPanic] at hp
  · rintro ⟨hnd, hdisj⟩
    obtain ⟨d', hd'⟩ := mergeRange_of_disjoint mk g hnd hdisj
    rw [hd']
    rfl

/-! ## Facts about Go maps -/

namespace GoMap

variable {V : Type}

theorem lookup_none_iff_not_mem (d : GoMap V) (k : String) :
    lookup d k = none ↔ k ∉ keys d :=
  Entries.lookup_eq_none_iff (entries d) k

theorem has_true_iff_mem (d : GoMap V) (k : String) :
    has d k = true ↔ k ∈ keys d :=
  Entries.has_iff_mem_keys (entries d) k

theorem has_false_iff_not_mem (d : GoMap V) (k : String) :
    has d k = false ↔ k ∉ keys d :=
  Entries.has_eq_false_iff (entries d) k

theorem mem_keys_of_lookup {d : GoMap V} {k : String} {v : V} (h : lookup d k = some v) :
    k ∈ keys d :=
  Entries.lookup_some_mem_keys (d := entries d) h

theorem not_mem_keys_nil (k : String) : k ∉ keys (GoMap.nil : GoMap V) := by
  simp [keys, entries, Entries.keys]

theorem lookup_nil (k : String) : lookup (GoMap.nil : GoMap V) k = none := rfl

theorem has_nil (k : String) : has (GoMap.nil : GoMap V) k = false := rfl

theorem isNil_iff (d : GoMap V) : isNil d = true ↔ d = GoMap.nil := by
  cases d <;> simp [isNil]

end GoMap

/-! ## Facts about the common shape of the merge loops -/

section RangeLoop

variable {V : Type} (mk : String → PanicValue) (g : V → Outcome V)

theorem rangeLoop_panics_of_transform {l : List (String × V)} {e : String × V}
    (he : e ∈ l) (hp : (g e.2).isPanic = true) (d : GoMap V) :
    (rangeLoop mk g l d).isPanic = true := by
  induction l generalizing d with
  | nil => simp at he
  | cons e0 rest ih =>
    obtain ⟨k0, v0⟩ := e0
    cases hg : g v0 with
    | panicked p st => simp [rangeLoop, hg, Outcome.isPanic]
    | done v1 =>
      have hrest : e ∈ rest := by
        rcases List.mem_cons.1 he with h | h
        · subst h
          rw [hg] at hp
          simp [Outcome.isPanic] at hp
        · exact h
      by_cases hk : GoMap.has d k0 = true
      · simp [rangeLoop, hg, hk, Outcome.isPanic]
      · cases d with
        | nil => simp [rangeLoop, hg, hk, GoMap.store, Outcome.isPanic]
        | alloc es =>
          simp only [rangeLoop, hg, hk, GoMap.store, Bool.false_eq_true, if_false]
          exact ih hrest _

theorem rangeLoop_nil {l : List (String × V)} (hl : l ≠ [])
    (hg : ∀ e, e ∈ l → (g e.2).isPanic = false) :
    rangeLoop mk g l GoMap.nil = Outcome.panicked PanicValue.nilMapAssignment GoMap.nil := by
  cases l with
  | nil => exact absurd rfl hl
  | cons e0 rest =>
    obtain ⟨k0, v0⟩ := e0
    have h0 := hg (k0, v0) (List.mem_cons_self _ _)
    cases hv : g v0 with
    | panicked p st => rw [hv] at h0; simp [Outcome.isPanic] at h0
    | done v1 => simp [rangeLoop, hv, GoMap.has_nil, GoMap.store]

theorem rangeLoop_nil_isPanic {l : List (String × V)} (hl : l ≠ []) :
    (rangeLoop mk g l GoMap.nil).isPanic = true := by
  by_cases hg : ∀ e, e ∈ l → (g e.2).isPanic = false
  · rw [rangeLoop_nil mk g hl hg]
    rfl
  · push_neg at hg
    obtain ⟨e, he, hp⟩ := hg
    exact rangeLoop_panics_of_transform mk g he (by simpa using hp) _

theorem rangeLoop_alloc {l : List (String × V)} (es : Entries V)
    (hg : ∀ e, e ∈ l → (g e.2).isPanic = false) :
    rangeLoop mk g l (GoMap.alloc es) =
      Outcome.mapState GoMap.alloc (mergeRange mk (fun v => (g v).state) l es) := by
  induction l generalizing es with
  | nil => rfl
  | cons e0 rest ih =>
    obtain ⟨k0, v0⟩ := e0
    have h0 := hg (k0, v0) (List.mem_cons_self _ _)
    have hrest : ∀ e, e ∈ rest → (g e.2).isPanic = false :=
      fun e he => hg e (List.mem_cons_of_mem _ he)
    cases hv : g v0 with
    | panicked p st => rw [hv] at h0; simp [Outcome.isPanic] at h0
    | done v1 =>
      by_cases hk : Entries.has es k0 = true
      · have hk2 : GoMap.has (GoMap.alloc es) k0 = true := hk
        simp [rangeLoop, mergeRange, hv, hk, hk2, Outcome.mapState]
      · have hk2 : ¬ GoMap.has (GoMap.alloc es) k0 = true := hk
        simp only [rangeLoop, mergeRange, hv, hk, hk2, GoMap.store, Bool.false_eq_true,
          if_false, Outcome.state]
        exact ih _ hrest

theorem rangeLoop_done {l : List (String × V)} {d d' : GoMap V}
    (h : rangeLoop mk g l d = Outcome.done d') :
    (∀ e, e ∈ l → (g e.2).isPanic = false) ∧
    ((l = [] ∧ d' = d) ∨
      ∃ es es', d = GoMap.alloc es ∧ d' = GoMap.alloc es' ∧
        mergeRange mk (fun v => (g v).state) l es = Outcome.done es') := by
  have hg : ∀ e, e ∈ l → (g e.2).isPanic = false := by
    intro e he
    by_contra hp
    have := rangeLoop_panics_of_transform mk g he (by simpa using hp) d
    rw [h] at this
    simp [Outcome.isPanic] at this
  refine ⟨hg, ?_⟩
  cases d with
  | nil =>
    by_cases hl : l = []
    · subst hl
      simp only [rangeLoop, Outcome.done.injEq] at h
      exact Or.inl ⟨rfl, h.symm⟩
    · rw [rangeLoop_nil mk g hl hg] at h
      simp at h
  | alloc es =>
    right
    rw [rangeLoop_alloc mk g es hg] at h
    cases hr : mergeRange mk (fun v => (g v).state) l es with
    | done es' =>
      rw [hr] at h
      simp only [Outcome.mapState, Outcome.done.injEq] at h
      exact ⟨es, es', rfl, h.symm, hr⟩
    | panicked p st =>
      rw [hr] at h
      simp [Outcome.mapState] at h

end RangeLoop

theorem mustAddSchemaRange_eq (l : List (String × Schema)) (d : GoMap Schema) :
    mustAddSchemaRange l d = rangeLoop PanicValue.schemaFieldExists Outcome.done l d := by
  induction l generalizing d with
  | nil => rfl
  | cons e rest ih =>
    obtain ⟨k0, v0⟩ := e
    by_cases hk : GoMap.has d k0 = true
    · simp [mustAddSchemaRange, mustAddSchema, rangeLoop, hk]
    · cases d with
      | nil => simp [mustAddSchemaRange, mustAddSchema, rangeLoop, hk, GoMap.store]
      | alloc es => simp [mustAddSchemaRange, mustAddSchema, rangeLoop, hk, GoMap.store, ih]

theorem mustAddSchemaResourceRange_eq (f : Option (Resource → Outcome Resource))
    (l : List (String × Resource)) (d : GoMap Resource) :
    mustAddSchemaResourceRange f l d =
      rangeLoop PanicValue.resourceExists (applyTransform f) l d := by
  induction l generalizing d with
  | nil => rfl
  | cons e rest ih =>
    obtain ⟨k0, v0⟩ := e
    cases hv : applyTransform f v0 with
    | panicked p st => simp [mustAddSchemaResourceRange, rangeLoop, hv]
    | done v1 =>
      by_cases hk : GoMap.has d k0 = true
      · simp [mustAddSchemaResourceRange, rangeLoop, hv, hk]
      · cases d with
        | nil => simp [mustAddSchemaResourceRange, rangeLoop, hv, hk, GoMap.store]
        | alloc es => simp [mustAddSchemaResourceRange, rangeLoop, hv, hk, GoMap.store, ih]

theorem done_never_panics {V : Type} (l : List (String × V)) :
    ∀ e, e ∈ l → (Outcome.done e.2 : Outcome V).isPanic = false :=
  fun _ _ => rfl

theorem resource_with_schema (r : Resource) : { r with Schema := r.Schema } = r := rfl

theorem MustAddSchema_alloc (r : Resource) (m : GoMap Schema) (es : Entries Schema)
    (h : r.Schema = GoMap.alloc es) :
    MustAddSchema r m =
      Outcome.mapState (fun es' => { r with Schema := GoMap.alloc es' })
        (mergeRange PanicValue.schemaFieldExists id (GoMap.entries m) es) := by
  have hid : (fun v : Schema => (Outcome.done v : Outcome Schema).state) = id := rfl
  rw [MustAddSchema, mustAddSchemaRange_eq, h,
    rangeLoop_alloc PanicValue.schemaFieldExists Outcome.done es (done_never_panics _), hid]
  cases mergeRange PanicValue.schemaFieldExists id (GoMap.entries m) es <;> rfl

theorem MustAddSchema_nil (r : Resource) (m : GoMap Schema) (h : r.Schema = GoMap.nil)
    (hm : GoMap.entries m ≠ []) :
    MustAddSchema r m = Outcome.panicked PanicValue.nilMapAssignment r := by
  rw [MustAddSchema, mustAddSchemaRange_eq, h,
    rangeLoop_nil PanicValue.schemaFieldExists Outcome.done hm (done_never_panics _)]
  simp only [Outcome.mapState]
  rw [← h]

theorem MustAddSchema_empty (r : Resource) (m : GoMap Schema) (hm : GoMap.entries m = []) :
    MustAddSchema r m = Outcome.done r := by
  simp [MustAddSchema, hm, mustAddSchemaRange, Outcome.mapState]

/-! ## Facts about `MustAddSchema` -/

theorem entries_eq_nil_of_keys {V : Type} {m : GoMap V} (h : GoMap.entries m = []) :
    GoMap.keys m = [] := by
  simp [GoMap.keys, h, Entries.keys]

theorem map_id_entries {V : Type} (l : List (String × V)) :
    l.map (fun e => (e.1, id e.2)) = l := by
  induction l with
  | nil => rfl
  | cons e rest ih => simp

theorem MustAddSchema_done {r r' : Resource} {m : GoMap Schema}
    (h : MustAddSchema r m = Outcome.done r') :
    r' = { r with Schema := r'.Schema } ∧
    (GoMap.keys m).Nodup ∧
    (∀ k, k ∈ GoMap.keys m → k ∉ GoMap.keys r.Schema) ∧
    (∀ k v, GoMap.lookup m k = some v → GoMap.lookup r'.Schema k = some v) ∧
    (∀ k, k ∉ GoMap.keys m → GoMap.lookup r'.Schema k = GoMap.lookup r.Schema k) ∧
    (r.Schema = GoMap.nil → GoMap.entries m = []) ∧
    GoMap.entries r'.Schema = GoMap.entries r.Schema ++ GoMap.entries m ∧
    GoMap.isNil r'.Schema = GoMap.isNil r.Schema := by
  cases hS : r.Schema with
  | nil =>
    by_cases hm : GoMap.entries m = []
    · rw [MustAddSchema_empty r m hm] at h
      simp only [Outcome.done.injEq] at h
      subst h
      have hk := entries_eq_nil_of_keys hm
      refine ⟨rfl, by simp [hk], by simp [hk], ?_, fun _ _ => by rw [hS], fun _ => hm,
        by simp [hm, hS], by rw [hS]⟩
      intro k v hl
      have : GoMap.lookup m k = none := by simp [GoMap.lookup, hm, Entries.lookup]
      rw [this] at hl
      exact Option.noConfusion hl
    · rw [MustAddSchema_nil r m hS hm] at h
      simp at h
  | alloc es =>
    rw [MustAddSchema_alloc r m es hS] at h
    cases hr : mergeRange PanicValue.schemaFieldExists id (GoMap.entries m) es with
    | panicked p st =>
      rw [hr] at h
      simp [Outcome.mapState] at h
    | done es' =>
      rw [hr] at h
      simp only [Outcome.mapState, Outcome.done.injEq] at h
      subst h
      obtain ⟨hnd, hdisj, hnew, hold⟩ := mergeRange_done _ _ hr
      have heq := mergeRange_done_eq _ _ hr
      rw [map_id_entries] at heq
      refine ⟨rfl, hnd, hdisj, ?_, hold, fun hn => by simp at hn, by simp [GoMap.entries, heq],
        rfl⟩
      intro k v hl
      simpa using hnew k v hl

theorem MustAddSchema_of_disjoint (r : Resource) {m : GoMap Schema} (hm : GoMap.WF m)
    (hdisj : ∀ k, k ∈ GoMap.keys m → k ∉ GoMap.keys r.Schema)
    (hnil : r.Schema = GoMap.nil → GoMap.entries m = []) :
    ∃ r', MustAddSchema r m = Outcome.done r' := by
  cases hS : r.Schema with
  | nil => exact ⟨r, MustAddSchema_empty r m (hnil hS)⟩
  | alloc es =>
    rw [hS] at hdisj
    obtain ⟨es', hd'⟩ := mergeRange_of_disjoint (d := es) PanicValue.schemaFieldExists id hm hdisj
    exact ⟨{ r with Schema := GoMap.alloc es' }, by rw [MustAddSchema_alloc r m es hS, hd']; rfl⟩

theorem MustAddSchema_panicked {r st : Resource} {m : GoMap Schema} {p : PanicValue}
    (h : MustAddSchema r m = Outcome.panicked p st) :
    st = { r with Schema := st.Schema } ∧
    ((p = PanicValue.nilMapAssignment ∧ r.Schema = GoMap.nil ∧ st = r ∧
        GoMap.entries m ≠ []) ∨
      ∃ pre k s post, GoMap.isNil r.Schema = false ∧
        GoMap.entries m = pre ++ (k, s) :: post ∧
        p = PanicValue.schemaFieldExists k ∧
        MustAddSchema r (GoMap.alloc pre) = Outcome.done st ∧
        k ∈ GoMap.keys st.Schema ∧
        ((GoMap.keys m).Nodup → k ∈ GoMap.keys r.Schema)) := by
  cases hS : r.Schema with
  | nil =>
    by_cases hm : GoMap.entries m = []
    · rw [MustAddSchema_empty r m hm] at h
      simp at h
    · rw [MustAddSchema_nil r m hS hm] at h
      simp only [Outcome.panicked.injEq] at h
      obtain ⟨hp, hst⟩ := h
      subst hst
      exact ⟨rfl, Or.inl ⟨hp.symm, rfl, rfl, hm⟩⟩
  | alloc es =>
    rw [MustAddSchema_alloc r m es hS] at h
    cases hr : mergeRange PanicValue.schemaFieldExists id (GoMap.entries m) es with
    | done es' =>
      rw [hr] at h
      simp [Outcome.mapState] at h
    | panicked p' st' =>
      rw [hr] at h
      simp only [Outcome.mapState, Outcome.panicked.injEq] at h
      obtain ⟨hp, hst⟩ := h
      subst hp
      subst hst
      obtain ⟨pre, k, s, post, hsplit, hpk, hpre, hks⟩ := mergeRange_panicked_split _ _ hr
      obtain ⟨k2, hp2, -, -, hkd⟩ := mergeRange_panicked _ _ hr
      have hkk : k2 = k := by
        rw [hpk] at hp2
        exact (PanicValue.schemaFieldExists.inj hp2).symm
      subst hkk
      refine ⟨rfl, Or.inr ⟨pre, k2, s, post, rfl, hsplit, hpk, ?_, hks, ?_⟩⟩
      · rw [MustAddSchema_alloc r (GoMap.alloc pre) es hS]
        simp only [GoMap.entries]
        rw [hpre]
        rfl
      · intro hnd
        exact hkd hnd

theorem MustAddSchema_isPanic_iff (r : Resource) (m : GoMap Schema) (hm : GoMap.WF m) :
    (MustAddSchema r m).isPanic = true ↔
      (∃ k, k ∈ GoMap.keys m ∧ k ∈ GoMap.keys r.Schema) ∨
      (r.Schema = GoMap.nil ∧ GoMap.entries m ≠ []) := by
  constructor
  · intro hp
    by_contra hcon
    push_neg at hcon
    obtain ⟨r', hr'⟩ := MustAddSchema_of_disjoint r hm (fun k hk hkr => hcon.1 k hk hkr)
      hcon.2
    rw [hr'] at hp
    simp [Outcome.isPanic] at hp
  · intro hc
    cases hrun : MustAddSchema r m with
    | panicked p st => rfl
    | done r' =>
      obtain ⟨-, -, hdisj, -, -, hnil, -, -⟩ := MustAddSchema_done hrun
      rcases hc with ⟨k, hkm, hkr⟩ | ⟨hn, hne⟩
      · exact absurd hkr (hdisj k hkm)
      · exact absurd (hnil hn) hne

theorem MustAddSchema_returns_iff (r : Resource) (m : GoMap Schema) :
    (MustAddSchema r m).isPanic = false ↔
      (GoMap.keys m).Nodup ∧ (∀ k, k ∈ GoMap.keys m → k ∉ GoMap.keys r.Schema) ∧
      (r.Schema = GoMap.nil → GoMap.entries m = []) := by
  constructor
  · intro hp
    cases hrun : MustAddSchema r m with
    | panicked p st => rw [hrun] at hp; simp [Outcome.isPanic] at hp
    | done r' =>
      obtain ⟨-, hnd, hdisj, -, -, hnil, -, -⟩ := MustAddSchema_done hrun
      exact ⟨hnd, hdisj, hnil⟩
  · rintro ⟨hnd, hdisj, hnil⟩
    obtain ⟨r', hr'⟩ := MustAddSchema_of_disjoint r hnd hdisj hnil
    rw [hr']
    rfl

/-! ## The merge functions -/

/-- C1 fails as stated: merging the field "path" into a resource whose field
map is the nil map panics, although no name of the contributions is a name of
the field map. -/
theorem MustAddSchema_panics_on_nil_field_map :
    (MustAddSchema {} (GoMap.alloc [("path", {})])).isPanic = true ∧
    ¬ ∃ k, k ∈ GoMap.keys (GoMap.alloc [("path", ({} : Schema))]) ∧
      k ∈ GoMap.keys ({} : Resource).Schema :=
  ⟨by decide, fun ⟨k, _, hk⟩ => GoMap.not_mem_keys_nil k hk⟩

/-- C1, as the code has it: `MustAddSchema` panics exactly when some name of
the contributions `m` is already a name of the resource's field map, or the
field map is nil and `m` is not empty; it returns exactly in the other cases;
a panic is the nil-map store or names a colliding field.  On an allocated
field map it panics exactly when the two name sets intersect and returns
exactly when they are disjoint. -/
theorem MustAddSchema_panics_iff_collision (r : Resource) (m : GoMap Schema)
    (hm : GoMap.WF m) :
    ((MustAddSchema r m).isPanic = true ↔
      (∃ k, k ∈ GoMap.keys m ∧ k ∈ GoMap.keys r.Schema) ∨
      (r.Schema = GoMap.nil ∧ GoMap.entries m ≠ [])) ∧
    ((∃ r', MustAddSchema r m = Outcome.done r') ↔
      (∀ k, k ∈ GoMap.keys m → k ∉ GoMap.keys r.Schema) ∧
      (r.Schema = GoMap.nil → GoMap.entries m = [])) ∧
    (∀ p st, MustAddSchema r m = Outcome.panicked p st →
      (p = PanicValue.nilMapAssignment ∧ r.Schema = GoMap.nil ∧ st = r) ∨
      ∃ k, p = PanicValue.schemaFieldExists k ∧ k ∈ GoMap.keys m ∧
        k ∈ GoMap.keys r.Schema) ∧
    (GoMap.isNil r.Schema = false →
      ((MustAddSchema r m).isPanic = true ↔
        ∃ k, k ∈ GoMap.keys m ∧ k ∈ GoMap.keys r.Schema) ∧
      ((∃ r', MustAddSchema r m = Outcome.done r') ↔
        ∀ k, k ∈ GoMap.keys m → k ∉ GoMap.keys r.Schema)) := by
  have hdone : (∃ r', MustAddSchema r m = Outcome.done r') ↔
      (∀ k, k ∈ GoMap.keys m → k ∉ GoMap.keys r.Schema) ∧
      (r.Schema = GoMap.nil → GoMap.entries m = []) := by
    constructor
    · rintro ⟨r', hr'⟩
      obtain ⟨-, -, hdisj, -, -, hnil, -, -⟩ := MustAddSchema_done hr'
      exact ⟨hdisj, hnil⟩
    · rintro ⟨hdisj, hnil⟩
      exact MustAddSchema_of_disjoint r hm hdisj hnil
  refine ⟨MustAddSchema_isPanic_iff r m hm, hdone, ?_, ?_⟩
  · intro p st h
    rcases (MustAddSchema_panicked h).2 with ⟨hp, hn, hst, -⟩ | ⟨pre, k, s, post, -, hsplit, hp, -, -, hkd⟩
    · exact Or.inl ⟨hp, hn, hst⟩
    · refine Or.inr ⟨k, hp, ?_, hkd hm⟩
      simp [GoMap.keys, Entries.keys, hsplit]
  · intro hal
    have hne : r.Schema ≠ GoMap.nil := by
      intro hn; rw [hn] at hal; simp [GoMap.isNil] at hal
    constructor
    · rw [MustAddSchema_isPanic_iff r m hm]
      constructor
      · rintro (h | ⟨hn, -⟩)
        · exact h
        · exact absurd hn hne
      · exact Or.inl
    · rw [hdone]
      constructor
      · exact fun h => h.1
      · exact fun h => ⟨h, fun hn => absurd hn hne⟩

/-- A run of C1: merging a field named "path" into a resource that already has
a field "path" panics. -/
theorem MustAddSchema_panics_iff_collision_witness :
    GoMap.WF (GoMap.alloc [("mount", ({} : Schema)), ("path", {})]) ∧
    (MustAddSchema { Schema := GoMap.alloc [("path", {})] }
      (GoMap.alloc [("mount", {}), ("path", {})])).isPanic = true :=
  ⟨by decide,
   (MustAddSchema_panics_iff_collision { Schema := GoMap.alloc [("path", {})] }
      (GoMap.alloc [("mount", {}), ("path", {})]) (by decide)).1.2
      (Or.inl ⟨"path", by decide, by decide⟩)⟩

/-- C2 fails as stated: the field map of the zero-value resource is empty, and
merging the field "path" into it panics with the nil-map store. -/
theorem MustAddSchema_empty_nil_field_map_panics :
    GoMap.entries ({} : Resource).Schema = [] ∧
    MustAddSchema {} (GoMap.alloc [("path", { Type_ := ValueType.TypeString })]) =
      Outcome.panicked PanicValue.nilMapAssignment {} :=
  ⟨rfl, rfl⟩

/-- C2, as the code has it: merging `A` and then `B`, two maps with disjoint
name sets, into a resource whose field map is an allocated empty map succeeds,
and the final field map has exactly the names of `A` and `B`, each with the
definition its map gives it.  More generally every successful merge of `m`
into a resource keeps each entry the field map had, adds each entry of `m`,
adds no other name and leaves the rest of the resource alone. -/
theorem MustAddSchema_disjoint_union (r : Resource) (A B : GoMap Schema)
    (hr : r.Schema = GoMap.alloc []) (hA : GoMap.WF A) (hB : GoMap.WF B)
    (hAB : ∀ k, k ∈ GoMap.keys A → k ∉ GoMap.keys B) :
    (∃ r1 r2, MustAddSchema r A = Outcome.done r1 ∧ MustAddSchema r1 B = Outcome.done r2 ∧
      (∀ k, k ∈ GoMap.keys r2.Schema ↔ k ∈ GoMap.keys A ∨ k ∈ GoMap.keys B) ∧
      (∀ k v, GoMap.lookup A k = some v → GoMap.lookup r2.Schema k = some v) ∧
      (∀ k v, GoMap.lookup B k = some v → GoMap.lookup r2.Schema k = some v)) ∧
    (∀ (r0 r' : Resource) (m : GoMap Schema), MustAddSchema r0 m = Outcome.done r' →
      (∀ k v, GoMap.lookup r0.Schema k = some v → GoMap.lookup r'.Schema k = some v) ∧
      (∀ k v, GoMap.lookup m k = some v → GoMap.lookup r'.Schema k = some v) ∧
      (∀ k, k ∈ GoMap.keys r'.Schema ↔ k ∈ GoMap.keys r0.Schema ∨ k ∈ GoMap.keys m) ∧
      r' = { r0 with Schema := r'.Schema }) := by
  have general : ∀ (r0 r' : Resource) (m : GoMap Schema),
      MustAddSchema r0 m = Outcome.done r' →
      (∀ k v, GoMap.lookup r0.Schema k = some v → GoMap.lookup r'.Schema k = some v) ∧
      (∀ k v, GoMap.lookup m k = some v → GoMap.lookup r'.Schema k = some v) ∧
      (∀ k, k ∈ GoMap.keys r'.Schema ↔ k ∈ GoMap.keys r0.Schema ∨ k ∈ GoMap.keys m) ∧
      r' = { r0 with Schema := r'.Schema } := by
    intro r0 r' m h
    obtain ⟨hframe, -, hdisj, hnew, hold, -, -, -⟩ := MustAddSchema_done h
    have hlook : ∀ k, GoMap.lookup r'.Schema k ≠ none ↔
        (GoMap.lookup r0.Schema k ≠ none ∨ GoMap.lookup m k ≠ none) := by
      intro k
      cases hm : GoMap.lookup m k with
      | some v => simp [hnew k v hm]
      | none =>
        rw [hold k ((GoMap.lookup_none_iff_not_mem m k).1 hm)]
        simp
    refine ⟨?_, hnew, ?_, hframe⟩
    · intro k v hk
      have hkm : k ∉ GoMap.keys m := fun hm => hdisj k hm (GoMap.mem_keys_of_lookup hk)
      rw [hold k hkm, hk]
    · intro k
      have := hlook k
      simp only [Ne, GoMap.lookup_none_iff_not_mem, not_not] at this
      exact this
  refine ⟨?_, general⟩
  have hne : r.Schema ≠ GoMap.nil := by rw [hr]; exact fun e => GoMap.noConfusion e
  have hdA : ∀ k, k ∈ GoMap.keys A → k ∉ GoMap.keys r.Schema := by
    intro k _; rw [hr]; simp [GoMap.keys, GoMap.entries, Entries.keys]
  obtain ⟨r1, h1⟩ := MustAddSchema_of_disjoint r hA hdA (fun hn => absurd hn hne)
  obtain ⟨-, hA1, hk1, -⟩ := general r r1 A h1
  have hnil1 : GoMap.isNil r1.Schema = GoMap.isNil r.Schema := (MustAddSchema_done h1).2.2.2.2.2.2.2
  have hne1 : r1.Schema ≠ GoMap.nil := by
    intro hn
    rw [hn, hr] at hnil1
    simp [GoMap.isNil] at hnil1
  have hdB : ∀ k, k ∈ GoMap.keys B → k ∉ GoMap.keys r1.Schema := by
    intro k hkB hk
    rcases (hk1 k).1 hk with h | h
    · rw [hr] at h; simp [GoMap.keys, GoMap.entries, Entries.keys] at h
    · exact hAB k h hkB
  obtain ⟨r2, h2⟩ := MustAddSchema_of_disjoint r1 hB hdB (fun hn => absurd hn hne1)
  obtain ⟨hold2, hB2, hk2, -⟩ := general r1 r2 B h2
  refine ⟨r1, r2, h1, h2, ?_, ?_, hB2⟩
  · intro k
    rw [hk2 k, hk1 k, hr]
    simp [GoMap.keys, GoMap.entries, Entries.keys]
  · intro k v hk
    exact hold2 k v (hA1 k v hk)

/-- A run of C2: merging the fields "path" and then "mount" into a resource
with an allocated empty field map leaves "mount" in the field map. -/
theorem MustAddSchema_disjoint_union_witness :
    ∃ r1 r2 : Resource,
      MustAddSchema { Schema := GoMap.alloc [] }
        (GoMap.alloc [("path", { Type_ := ValueType.TypeString })]) = Outcome.done r1 ∧
      MustAddSchema r1 (GoMap.alloc [("mount", { Type_ := ValueType.TypeBool })]) =
        Outcome.done r2 ∧
      "mount" ∈ GoMap.keys r2.Schema :=
  have h := (MustAddSchema_disjoint_union { Schema := GoMap.alloc [] }
    (GoMap.alloc [("path", { Type_ := ValueType.TypeString })])
    (GoMap.alloc [("mount", { Type_ := ValueType.TypeBool })]) rfl (by decide) (by decide)
    (by decide)).1
  h.elim fun r1 h1 => h1.elim fun r2 h2 =>
    ⟨r1, r2, h2.1, h2.2.1, (h2.2.2.1 "mount").2 (Or.inr (by decide))⟩

theorem rangeLoop_isPanic_iff {V : Type} (mk : String → PanicValue) (g : V → Outcome V)
    {l : List (String × V)} (d : GoMap V) (hnd : (Entries.keys l).Nodup) :
    (rangeLoop mk g l d).isPanic = true ↔
      (∃ k, k ∈ Entries.keys l ∧ k ∈ GoMap.keys d) ∨
      (d = GoMap.nil ∧ l ≠ []) ∨
      (∃ e, e ∈ l ∧ (g e.2).isPanic = true) := by
  by_cases hg : ∀ e, e ∈ l → (g e.2).isPanic = false
  · have hno : ¬ ∃ e, e ∈ l ∧ (g e.2).isPanic = true := by
      rintro ⟨e, he, hp⟩
      rw [hg e he] at hp
      exact Bool.noConfusion hp
    cases d with
    | nil =>
      by_cases hl : l = []
      · subst hl
        simp [rangeLoop, Outcome.isPanic, Entries.keys]
      · rw [rangeLoop_nil mk g hl hg]
        simp [Outcome.isPanic, hl]
    | alloc es =>
      rw [rangeLoop_alloc mk g es hg]
      have hiff := mergeRange_isPanic_iff mk (fun v => (g v).state) (d := es) hnd
      have hmap : (Outcome.mapState GoMap.alloc
          (mergeRange mk (fun v => (g v).state) l es)).isPanic =
          (mergeRange mk (fun v => (g v).state) l es).isPanic := by
        cases mergeRange mk (fun v => (g v).state) l es <;> rfl
      rw [hmap, hiff]
      constructor
      · exact Or.inl
      · rintro (h | ⟨h, -⟩ | h)
        · exact h
        · exact GoMap.noConfusion h
        · exact absurd h hno
  · push_neg at hg
    obtain ⟨e, he, hp⟩ := hg
    have hp2 : (g e.2).isPanic = true := by simpa using hp
    constructor
    · intro _
      exact Or.inr (Or.inr ⟨e, he, hp2⟩)
    · intro _
      exact rangeLoop_panics_of_transform mk g he hp2 d

theorem applyTransform_of_returns (f : Option (Resource → Outcome Resource)) (r : Resource)
    (h : (applyTransform f r).isPanic = false) :
    applyTransform f r = Outcome.done (applyTransform f r).state := by
  cases hv : applyTransform f r with
  | done r' => rfl
  | panicked p st => rw [hv] at h; simp [Outcome.isPanic] at h

/-- C3: when `MustAddSchemaResource(s, d, f)` returns, the destination holds for
every name of `s` the definition `f` returned for it (the definition itself
when `f` is nil), every entry that `d` had is unchanged, and every name of the
result comes from `s` or from `d`. -/
theorem MustAddSchemaResource_result (s d d' : GoMap Resource)
    (f : Option (Resource → Outcome Resource))
    (h : MustAddSchemaResource s d f = Outcome.done d') :
    (∀ n r, GoMap.lookup s n = some r →
      match f with
      | some g => ∃ r', g r = Outcome.done r' ∧ GoMap.lookup d' n = some r'
      | none => GoMap.lookup d' n = some r) ∧
    (∀ n r, GoMap.lookup d n = some r → GoMap.lookup d' n = some r) ∧
    (∀ n, n ∈ GoMap.keys d' → n ∈ GoMap.keys s ∨ n ∈ GoMap.keys d) := by
  rw [MustAddSchemaResource, mustAddSchemaResourceRange_eq] at h
  obtain ⟨hg, hcase⟩ := rangeLoop_done _ _ h
  rcases hcase with ⟨hl, hd⟩ | ⟨es, es', hd, hd', hrun⟩
  · subst hd
    refine ⟨?_, fun _ _ hn => hn, fun _ hn => Or.inr hn⟩
    intro n r hn
    have : GoMap.lookup s n = none := by simp [GoMap.lookup, hl, Entries.lookup]
    rw [this] at hn
    exact Option.noConfusion hn
  · subst hd
    subst hd'
    obtain ⟨hnd, hdisj, hnew, hold⟩ := mergeRange_done _ _ hrun
    refine ⟨?_, ?_, ?_⟩
    · intro n r hn
      have hmem : (n, r) ∈ GoMap.entries s := (Entries.lookup_eq_some_iff_mem hnd n r).1 hn
      have hret := applyTransform_of_returns f r (hg (n, r) hmem)
      have hlook : GoMap.lookup (GoMap.alloc es') n = some (applyTransform f r).state :=
        hnew n r hn
      cases f with
      | none => exact hlook
      | some g => exact ⟨_, hret, hlook⟩
    · intro n r hn
      have hns : n ∉ Entries.keys (GoMap.entries s) :=
        fun hm => hdisj n hm (Entries.lookup_some_mem_keys hn)
      exact (hold n hns).trans hn
    · intro n hn
      by_cases hs : n ∈ GoMap.keys s
      · exact Or.inl hs
      · right
        rw [← GoMap.has_true_iff_mem] at hn ⊢
        unfold GoMap.has at hn ⊢
        have := hold n hs
        rw [show GoMap.lookup (GoMap.alloc es') n = Entries.lookup es' n from rfl, this] at hn
        exact hn

/-- A run of C3: with a transform that sets the schema version to 7, the
resource registered as "vault_mount" is the transformed one and the entry
"vault_auth" of the destination is kept. -/
theorem MustAddSchemaResource_result_witness :
    ∃ d' : GoMap Resource,
      MustAddSchemaResource (GoMap.alloc [("vault_mount", {})])
        (GoMap.alloc [("vault_auth", { SchemaVersion := 2 })])
        (some fun r => Outcome.done { r with SchemaVersion := 7 }) = Outcome.done d' ∧
      (GoMap.lookup d' "vault_mount").map (fun r => r.SchemaVersion) = some 7 ∧
      (GoMap.lookup d' "vault_auth").map (fun r => r.SchemaVersion) = some 2 :=
  ⟨_, rfl,
    ((MustAddSchemaResource_result (GoMap.alloc [("vault_mount", {})])
        (GoMap.alloc [("vault_auth", { SchemaVersion := 2 })]) _
        (some fun r => Outcome.done { r with SchemaVersion := 7 }) rfl).1
          "vault_mount" {} rfl).elim
      fun r' hr' => by rw [hr'.2, ← Outcome.done.inj hr'.1]; rfl,
    by rw [(MustAddSchemaResource_result (GoMap.alloc [("vault_mount", {})])
        (GoMap.alloc [("vault_auth", { SchemaVersion := 2 })]) _
        (some fun r => Outcome.done { r with SchemaVersion := 7 }) rfl).2.1 "vault_auth"
          { SchemaVersion := 2 } rfl]; rfl⟩

/-- C4 fails as stated: registering "vault_mount" into a nil destination map
panics with the nil-map store, although the destination has no name at all. -/
theorem MustAddSchemaResource_panics_on_nil_destination :
    MustAddSchemaResource (GoMap.alloc [("vault_mount", {})]) GoMap.nil none =
      Outcome.panicked PanicValue.nilMapAssignment GoMap.nil ∧
    GoMap.keys (GoMap.nil : GoMap Resource) = [] :=
  ⟨rfl, rfl⟩

/-- C4, as the code has it: `MustAddSchemaResource(s, d, f)` panics exactly when
some name of `s` is already a name of `d`, or `d` is nil and `s` is not empty,
or the transform panics on a definition of `s`.  On an allocated destination
and with a transform that returns on every definition of `s` (or none), it
panics exactly when some name of `s` is already a name of `d`, with a panic
value naming such a resource type, and the transform plays no part: with any
other transform that returns, or none, the call panics on the same inputs. -/
theorem MustAddSchemaResource_panics_iff_collision (s d : GoMap Resource)
    (f : Option (Resource → Outcome Resource)) (hs : GoMap.WF s) :
    ((MustAddSchemaResource s d f).isPanic = true ↔
      (∃ n, n ∈ GoMap.keys s ∧ n ∈ GoMap.keys d) ∨
      (d = GoMap.nil ∧ GoMap.entries s ≠ []) ∨
      (∃ e, e ∈ GoMap.entries s ∧ (applyTransform f e.2).isPanic = true)) ∧
    (GoMap.isNil d = false →
      (∀ e, e ∈ GoMap.entries s → (applyTransform f e.2).isPanic = false) →
      ((MustAddSchemaResource s d f).isPanic = true ↔
        ∃ n, n ∈ GoMap.keys s ∧ n ∈ GoMap.keys d) ∧
      (∀ p st, MustAddSchemaResource s d f = Outcome.panicked p st →
        ∃ n, p = PanicValue.resourceExists n ∧ n ∈ GoMap.keys s ∧ n ∈ GoMap.keys d) ∧
      (∀ f2 : Option (Resource → Outcome Resource),
        (∀ e, e ∈ GoMap.entries s → (applyTransform f2 e.2).isPanic = false) →
        (MustAddSchemaResource s d f2).isPanic = (MustAddSchemaResource s d f).isPanic)) := by
  have key : ∀ f0 : Option (Resource → Outcome Resource),
      ((MustAddSchemaResource s d f0).isPanic = true ↔
        (∃ n, n ∈ GoMap.keys s ∧ n ∈ GoMap.keys d) ∨
        (d = GoMap.nil ∧ GoMap.entries s ≠ []) ∨
        (∃ e, e ∈ GoMap.entries s ∧ (applyTransform f0 e.2).isPanic = true)) := by
    intro f0
    rw [MustAddSchemaResource, mustAddSchemaResourceRange_eq]
    exact rangeLoop_isPanic_iff _ _ d hs
  refine ⟨key f, ?_⟩
  intro hal hret
  have hne : d ≠ GoMap.nil := by
    intro hn; rw [hn] at hal; simp [GoMap.isNil] at hal
  have simple : ∀ f0 : Option (Resource → Outcome Resource),
      (∀ e, e ∈ GoMap.entries s → (applyTransform f0 e.2).isPanic = false) →
      ((MustAddSchemaResource s d f0).isPanic = true ↔
        ∃ n, n ∈ GoMap.keys s ∧ n ∈ GoMap.keys d) := by
    intro f0 h0
    rw [key f0]
    constructor
    · rintro (h | ⟨hn, -⟩ | ⟨e, he, hp⟩)
      · exact h
      · exact absurd hn hne
      · rw [h0 e he] at hp
        exact Bool.noConfusion hp
    · exact Or.inl
  refine ⟨simple f hret, ?_, ?_⟩
  · intro p st h
    rw [MustAddSchemaResource, mustAddSchemaResourceRange_eq] at h
    cases d with
    | nil => exact absurd rfl hne
    | alloc es =>
      rw [rangeLoop_alloc _ _ es hret] at h
      cases hr : mergeRange PanicValue.resourceExists (fun v => (applyTransform f v).state)
          (GoMap.entries s) es with
      | done es' => rw [hr] at h; simp [Outcome.mapState] at h
      | panicked p' st' =>
        rw [hr] at h
        simp only [Outcome.mapState, Outcome.panicked.injEq] at h
        obtain ⟨n, hp, hns, -, hnd⟩ := mergeRange_panicked _ _ hr
        exact ⟨n, h.1 ▸ hp, hns, hnd hs⟩
  · intro f2 h2
    rw [Bool.eq_iff_iff, simple f2 h2, simple f hret]

/-- A run of C4: registering "vault_mount" twice panics although the transform
replaces the definition. -/
theorem MustAddSchemaResource_panics_iff_collision_witness :
    GoMap.WF (GoMap.alloc [("vault_mount", ({} : Resource))]) ∧
    (MustAddSchemaResource (GoMap.alloc [("vault_mount", {})])
      (GoMap.alloc [("vault_mount", { SchemaVersion := 2 })])
      (some fun _ => Outcome.done { SchemaVersion := 9 })).isPanic = true :=
  ⟨by decide,
   ((MustAddSchemaResource_panics_iff_collision (GoMap.alloc [("vault_mount", {})])
      (GoMap.alloc [("vault_mount", { SchemaVersion := 2 })])
      (some fun _ => Outcome.done { SchemaVersion := 9 })
      (by decide)).2 rfl (fun _ _ => rfl)).1.2 ⟨"vault_mount", by decide, by decide⟩⟩

/-! ## The mount-migration augmenter -/

theorem isNil_false_iff {V : Type} (d : GoMap V) :
    GoMap.isNil d = false ↔ ∃ es, d = GoMap.alloc es := by
  cases d with
  | nil => simp [GoMap.isNil]
  | alloc es => simp [GoMap.isNil]

theorem MustAddMountMigrationSchema_of_has (r : Resource) (c : Bool)
    (h : GoMap.has r.Schema FieldDisableRemount = true) :
    MustAddMountMigrationSchema r c =
      Outcome.panicked (PanicValue.schemaFieldExists FieldDisableRemount) r := by
  simp [MustAddMountMigrationSchema, MustAddSchema, GoMap.entries, mustAddSchemaRange,
    mustAddSchema, h, Outcome.mapState]

theorem MustAddMountMigrationSchema_of_nil (r : Resource) (c : Bool)
    (h : r.Schema = GoMap.nil) :
    MustAddMountMigrationSchema r c = Outcome.panicked PanicValue.nilMapAssignment r := by
  have hm : GoMap.entries (GoMap.alloc [(FieldDisableRemount,
      ({ Type_ := ValueType.TypeBool
         Optional := true
         Default := Iface.bool false
         Description := "If set, opts out of mount migration " ++ "on path updates." } :
        Schema))]) ≠ [] := by
    simp [GoMap.entries]
  simp only [MustAddMountMigrationSchema]
  rw [MustAddSchema_nil r _ h hm]

theorem MustAddMountMigrationSchema_of_alloc (r : Resource) (c : Bool) (es : Entries Schema)
    (h : r.Schema = GoMap.alloc es) (hh : Entries.has es FieldDisableRemount = false) :
    MustAddMountMigrationSchema r c =
      Outcome.done (if c then
          { r with Schema :=
              GoMap.alloc (Entries.store es FieldDisableRemount disableRemountSchema) }
        else
          { r with
            Schema := GoMap.alloc (Entries.store es FieldDisableRemount disableRemountSchema)
            StateUpgraders := defaultDisableRemountStateUpgraders
            SchemaVersion := 1 }) := by
  have hh2 : GoMap.has (GoMap.alloc es) FieldDisableRemount = false := hh
  cases c <;>
    simp [MustAddMountMigrationSchema, MustAddSchema, GoMap.entries, mustAddSchemaRange,
      mustAddSchema, h, hh2, GoMap.store, Outcome.mapState, disableRemountSchema]

/-- C5 fails as stated: the zero-value resource has no "disable_remount", and
`MustAddMountMigrationSchema` panics on it with the nil-map store, leaving it
as it was. -/
theorem MustAddMountMigrationSchema_default_panics_on_nil :
    "disable_remount" ∉ GoMap.keys ({} : Resource).Schema ∧
    MustAddMountMigrationSchema {} false =
      Outcome.panicked PanicValue.nilMapAssignment {} :=
  ⟨GoMap.not_mem_keys_nil _, rfl⟩

/-- C5, as the code has it: on a resource whose field map is allocated and has
no "disable_remount", `MustAddMountMigrationSchema(r, false)` returns `r` with
schema version 1, with a state upgrader for version 0, and with its field map
extended by "disable_remount", a boolean optional field with default false;
every other field keeps its definition and the rest of the resource is as it
was. -/
theorem MustAddMountMigrationSchema_default (r : Resource)
    (hal : GoMap.isNil r.Schema = false)
    (h : "disable_remount" ∉ GoMap.keys r.Schema) :
    ∃ r', MustAddMountMigrationSchema r false = Outcome.done r' ∧
      r'.SchemaVersion = 1 ∧
      (∃ su, su ∈ r'.StateUpgraders ∧ su.Version = 0) ∧
      (∃ fd, GoMap.lookup r'.Schema "disable_remount" = some fd ∧
        fd.Type_ = ValueType.TypeBool ∧ fd.Optional = true ∧ fd.Required = false ∧
        fd.Default = Iface.bool false) ∧
      (∀ k, k ≠ "disable_remount" → GoMap.lookup r'.Schema k = GoMap.lookup r.Schema k) ∧
      (∀ k, k ∈ GoMap.keys r'.Schema ↔ k ∈ GoMap.keys r.Schema ∨ k = "disable_remount") ∧
      r'.Description = r.Description ∧ r'.DeprecationMessage = r.DeprecationMessage := by
  obtain ⟨es, hes⟩ := (isNil_false_iff _).1 hal
  rw [hes] at h
  have hh : Entries.has es FieldDisableRemount = false := (Entries.has_eq_false_iff _ _).2 h
  refine ⟨_, MustAddMountMigrationSchema_of_alloc r false es hes hh, rfl, ?_, ?_, ?_, ?_, rfl,
    rfl⟩
  · exact ⟨_, List.mem_singleton.2 rfl, rfl⟩
  · exact ⟨disableRemountSchema, Entries.lookup_store_self _ _ _, rfl, rfl, rfl, rfl⟩
  · intro k hk
    rw [hes]
    exact Entries.lookup_store_ne _ _ hk
  · intro k
    rw [hes]
    exact (Entries.mem_keys_store _ _ _ _).trans or_comm

/-- A run of C5 on a resource whose only field is "path". -/
theorem MustAddMountMigrationSchema_default_witness :
    "disable_remount" ∉
      GoMap.keys ({ Schema := GoMap.alloc [("path", {})] } : Resource).Schema ∧
    ∃ r', MustAddMountMigrationSchema { Schema := GoMap.alloc [("path", {})] } false =
        Outcome.done r' ∧
      r'.SchemaVersion = 1 :=
  ⟨by decide,
   (MustAddMountMigrationSchema_default { Schema := GoMap.alloc [("path", {})] } rfl
      (by decide)).elim
     fun r' hr' => ⟨r', hr'.1, hr'.2.1⟩⟩

/-- C6 fails as stated: on the zero-value resource, which has no
"disable_remount", `MustAddMountMigrationSchema(r, true)` panics and adds no
field. -/
theorem MustAddMountMigrationSchema_custom_panics_on_nil :
    (MustAddMountMigrationSchema {} true).isPanic = true ∧
    GoMap.lookup (MustAddMountMigrationSchema {} true).state.Schema "disable_remount" = none :=
  ⟨by decide, rfl⟩

/-- C6, as the code has it: on a resource whose field map is allocated and has
no "disable_remount", `MustAddMountMigrationSchema(r, true)` returns `r` with
the field "disable_remount" added and nothing else changed: the schema
version, the list of state upgraders and every other part of the resource are
those of `r`, and every other field keeps its definition. -/
theorem MustAddMountMigrationSchema_custom (r : Resource)
    (hal : GoMap.isNil r.Schema = false)
    (h : "disable_remount" ∉ GoMap.keys r.Schema) :
    ∃ r', MustAddMountMigrationSchema r true = Outcome.done r' ∧
      r'.SchemaVersion = r.SchemaVersion ∧
      r'.StateUpgraders = r.StateUpgraders ∧
      r' = { r with Schema := r'.Schema } ∧
      (∃ fd, GoMap.lookup r'.Schema "disable_remount" = some fd ∧
        fd.Type_ = ValueType.TypeBool ∧ fd.Optional = true ∧ fd.Default = Iface.bool false) ∧
      (∀ k, k ≠ "disable_remount" → GoMap.lookup r'.Schema k = GoMap.lookup r.Schema k) ∧
      (∀ k, k ∈ GoMap.keys r'.Schema ↔ k ∈ GoMap.keys r.Schema ∨ k = "disable_remount") := by
  obtain ⟨es, hes⟩ := (isNil_false_iff _).1 hal
  rw [hes] at h
  have hh : Entries.has es FieldDisableRemount = false := (Entries.has_eq_false_iff _ _).2 h
  refine ⟨_, MustAddMountMigrationSchema_of_alloc r true es hes hh, rfl, rfl, rfl, ?_, ?_, ?_⟩
  · exact ⟨disableRemountSchema, Entries.lookup_store_self _ _ _, rfl, rfl, rfl⟩
  · intro k hk
    rw [hes]
    exact Entries.lookup_store_ne _ _ hk
  · intro k
    rw [hes]
    exact (Entries.mem_keys_store _ _ _ _).trans or_comm

/-- A run of C6 on a resource at schema version 3 with one upgrader of its own. -/
theorem MustAddMountMigrationSchema_custom_witness :
    "disable_remount" ∉
      GoMap.keys ({ Schema := GoMap.alloc [("path", {})] } : Resource).Schema ∧
    ∃ r', MustAddMountMigrationSchema
        { Schema := GoMap.alloc [("path", {})]
          SchemaVersion := 3
          StateUpgraders := [⟨2, ⟨GoMap.nil⟩, fun _ s _ => Call.returned s (s, none)⟩] }
        true = Outcome.done r' ∧
      r'.SchemaVersion = 3 ∧ r'.StateUpgraders.length = 1 :=
  ⟨by decide,
   (MustAddMountMigrationSchema_custom
      { Schema := GoMap.alloc [("path", {})]
        SchemaVersion := 3
        StateUpgraders := [⟨2, ⟨GoMap.nil⟩, fun _ s _ => Call.returned s (s, none)⟩] }
      rfl (by decide)).elim
     fun r' hr' => ⟨r', hr'.1, hr'.2.1, by rw [hr'.2.2.1]; rfl⟩⟩

/-- C7 fails as stated: a resource with a description and a nil field map does
not define "disable_remount", and the call on it panics. -/
theorem MustAddMountMigrationSchema_panics_without_field :
    "disable_remount" ∉
      GoMap.keys ({ Description := "kv mount" } : Resource).Schema ∧
    (MustAddMountMigrationSchema { Description := "kv mount" } false).isPanic = true :=
  ⟨GoMap.not_mem_keys_nil _, by decide⟩

/-- C7, as the code has it: `MustAddMountMigrationSchema(r, c)` panics, for
either value of `c`, exactly when the field map of `r` is nil or already has
"disable_remount"; on an allocated field map it panics exactly when the field
map already has "disable_remount", and then with the duplicate-field value for
that name; a second call on the resource a first call returned always panics
with that value. -/
theorem MustAddMountMigrationSchema_panics_iff (r : Resource) (c : Bool) :
    ((MustAddMountMigrationSchema r c).isPanic = true ↔
      r.Schema = GoMap.nil ∨ "disable_remount" ∈ GoMap.keys r.Schema) ∧
    (GoMap.isNil r.Schema = false →
      ((MustAddMountMigrationSchema r c).isPanic = true ↔
        "disable_remount" ∈ GoMap.keys r.Schema) ∧
      (∀ p st, MustAddMountMigrationSchema r c = Outcome.panicked p st →
        p = PanicValue.schemaFieldExists "disable_remount")) ∧
    (∀ r' c2, MustAddMountMigrationSchema r c = Outcome.done r' →
      MustAddMountMigrationSchema r' c2 =
        Outcome.panicked (PanicValue.schemaFieldExists "disable_remount") r') := by
  cases hS : r.Schema with
  | nil =>
    rw [MustAddMountMigrationSchema_of_nil r c hS]
    refine ⟨⟨fun _ => Or.inl rfl, fun _ => rfl⟩, fun hal => by simp [GoMap.isNil] at hal, ?_⟩
    intro r' c2 hd
    simp at hd
  | alloc es =>
    cases hh : Entries.has es FieldDisableRemount with
    | true =>
      have hh2 : GoMap.has r.Schema FieldDisableRemount = true := by rw [hS]; exact hh
      have hm : "disable_remount" ∈ GoMap.keys (GoMap.alloc es) :=
        (Entries.has_iff_mem_keys _ _).1 hh
      rw [MustAddMountMigrationSchema_of_has r c hh2]
      refine ⟨⟨fun _ => Or.inr hm, fun _ => rfl⟩,
        fun _ => ⟨⟨fun _ => hm, fun _ => rfl⟩, ?_⟩, ?_⟩
      · intro p st hp
        simp only [Outcome.panicked.injEq] at hp
        exact hp.1.symm
      · intro r' c2 hd
        simp at hd
    | false =>
      have hm : "disable_remount" ∉ GoMap.keys (GoMap.alloc es) :=
        (Entries.has_eq_false_iff _ _).1 hh
      rw [MustAddMountMigrationSchema_of_alloc r c es hS hh]
      refine ⟨⟨fun hp => by simp [Outcome.isPanic] at hp, ?_⟩,
        fun _ => ⟨⟨fun hp => by simp [Outcome.isPanic] at hp, fun hk => absurd hk hm⟩, ?_⟩, ?_⟩
      · rintro (hn | hk)
        · exact GoMap.noConfusion hn
        · exact absurd hk hm
      · intro p st hp
        simp at hp
      · intro r' c2 hd
        simp only [Outcome.done.injEq] at hd
        apply MustAddMountMigrationSchema_of_has
        rw [GoMap.has_true_iff_mem, ← hd]
        cases c <;> exact (Entries.mem_keys_store _ _ _ _).2 (Or.inl rfl)

/-- A run of C7: the second of two calls on a resource with an allocated empty
field map panics. -/
theorem MustAddMountMigrationSchema_panics_iff_witness :
    ∃ r', MustAddMountMigrationSchema { Schema := GoMap.alloc [] } false = Outcome.done r' ∧
      MustAddMountMigrationSchema r' true =
        Outcome.panicked (PanicValue.schemaFieldExists "disable_remount") r' :=
  ⟨_, rfl,
    (MustAddMountMigrationSchema_panics_iff { Schema := GoMap.alloc [] } false).2.2 _ true rfl⟩

/-- C16 fails as stated: a resource at schema version 5 with a nil field map
has no "disable_remount", and the call on it panics and leaves the version
at 5. -/
theorem MustAddMountMigrationSchema_keeps_version_on_nil :
    "disable_remount" ∉ GoMap.keys ({ SchemaVersion := 5 } : Resource).Schema ∧
    (MustAddMountMigrationSchema { SchemaVersion := 5 } false).isPanic = true ∧
    (MustAddMountMigrationSchema { SchemaVersion := 5 } false).state.SchemaVersion = 5 :=
  ⟨GoMap.not_mem_keys_nil _, by decide, by decide⟩

/-- C16, as the code has it: on a resource whose field map is allocated and has
no "disable_remount", `MustAddMountMigrationSchema(r, false)` returns a
resource whose list of state upgraders is exactly the one default upgrader,
with source version 0 and the transform
`SecretsAuthMountDisableRemountUpgradeV0`, and whose schema version is exactly
1, whatever upgraders and version `r` had. -/
theorem MustAddMountMigrationSchema_overwrites (r : Resource)
    (hal : GoMap.isNil r.Schema = false)
    (h : "disable_remount" ∉ GoMap.keys r.Schema) :
    ∃ r', MustAddMountMigrationSchema r false = Outcome.done r' ∧
      r'.StateUpgraders = defaultDisableRemountStateUpgraders ∧
      (∃ su, r'.StateUpgraders = [su] ∧ su.Version = 0 ∧
        su.Upgrade = SecretsAuthMountDisableRemountUpgradeV0) ∧
      r'.SchemaVersion = 1 := by
  obtain ⟨es, hes⟩ := (isNil_false_iff _).1 hal
  rw [hes] at h
  have hh : Entries.has es FieldDisableRemount = false := (Entries.has_eq_false_iff _ _).2 h
  exact ⟨_, MustAddMountMigrationSchema_of_alloc r false es hes hh, rfl, ⟨_, rfl, rfl, rfl⟩,
    rfl⟩

/-- A run of C16: a resource at schema version 5 with two upgraders of its own
comes back at version 1 with one upgrader. -/
theorem MustAddMountMigrationSchema_overwrites_witness :
    ∃ r', MustAddMountMigrationSchema
        { Schema := GoMap.alloc [("path", {})]
          SchemaVersion := 5
          StateUpgraders := [⟨3, ⟨GoMap.nil⟩, fun _ s _ => Call.returned s (s, none)⟩,
            ⟨4, ⟨GoMap.nil⟩, fun _ s _ => Call.returned s (s, none)⟩] } false =
        Outcome.done r' ∧
      r'.StateUpgraders.length = 1 ∧ r'.SchemaVersion = 1 :=
  (MustAddMountMigrationSchema_overwrites
      { Schema := GoMap.alloc [("path", {})]
        SchemaVersion := 5
        StateUpgraders := [⟨3, ⟨GoMap.nil⟩, fun _ s _ => Call.returned s (s, none)⟩,
          ⟨4, ⟨GoMap.nil⟩, fun _ s _ => Call.returned s (s, none)⟩] } rfl (by decide)).elim
    fun r' hr' => ⟨r', hr'.1, by rw [hr'.2.1]; rfl, hr'.2.2.2⟩

/-! ## The state upgrader -/

theorem upgradeV0_nil (ctx : Context) (meta : Iface) :
    SecretsAuthMountDisableRemountUpgradeV0 ctx GoMap.nil meta =
      Call.panicked PanicValue.nilMapAssignment GoMap.nil := rfl

theorem upgradeV0_alloc_of_nil (ctx : Context) (es : Entries Iface) (meta : Iface)
    (h : (GoMap.index (GoMap.alloc es) FieldDisableRemount).isNil = true) :
    SecretsAuthMountDisableRemountUpgradeV0 ctx (GoMap.alloc es) meta =
      Call.returned (GoMap.alloc (Entries.store es FieldDisableRemount (Iface.bool false)))
        (GoMap.alloc (Entries.store es FieldDisableRemount (Iface.bool false)), none) := by
  simp [SecretsAuthMountDisableRemountUpgradeV0, h, GoMap.store]

theorem upgradeV0_of_not_nil (ctx : Context) (s : GoMap Iface) (meta : Iface)
    (h : (GoMap.index s FieldDisableRemount).isNil = false) :
    SecretsAuthMountDisableRemountUpgradeV0 ctx s meta = Call.returned s (s, none) := by
  simp [SecretsAuthMountDisableRemountUpgradeV0, h]

theorem index_isNil_iff (s : GoMap Iface) (k : String) :
    (GoMap.index s k).isNil = true ↔
      GoMap.lookup s k = none ∨ GoMap.lookup s k = some Iface.nil := by
  unfold GoMap.index
  cases h : GoMap.lookup s k with
  | none => simp [Iface.isNil]
  | some v => cases v <;> simp [Iface.isNil]

theorem index_store_not_nil (es : Entries Iface) (k : String) :
    (GoMap.index (GoMap.alloc (Entries.store es k (Iface.bool false))) k).isNil = false := by
  have : GoMap.lookup (GoMap.alloc (Entries.store es k (Iface.bool false))) k =
      some (Iface.bool false) := Entries.lookup_store_self es k _
  simp [GoMap.index, this, Iface.isNil]

/-- C8 fails as stated: in the nil raw state the key "disable_remount" is
absent, and the upgrader panics with the nil-map store instead of returning a
state. -/
theorem SecretsAuthMountDisableRemountUpgradeV0_panics_on_nil_state :
    GoMap.lookup (GoMap.nil : GoMap Iface) "disable_remount" = none ∧
    SecretsAuthMountDisableRemountUpgradeV0 ⟨false⟩ GoMap.nil Iface.nil =
      Call.panicked PanicValue.nilMapAssignment GoMap.nil :=
  ⟨rfl, rfl⟩

/-- C8, as the code has it: on an allocated raw state
`SecretsAuthMountDisableRemountUpgradeV0` returns the state with
"disable_remount" set to false when the state reads nil at that key (the key
is missing, or it holds nil), and the state itself when the key holds any
other value; every other key reads as before.  The allocated empty state
becomes `{"disable_remount": false}`, and `{"disable_remount": true}` is
returned as it is. -/
theorem SecretsAuthMountDisableRemountUpgradeV0_spec (ctx : Context) (s : GoMap Iface)
    (meta : Iface) (hal : GoMap.isNil s = false) :
    (GoMap.lookup s "disable_remount" = none ∨
        GoMap.lookup s "disable_remount" = some Iface.nil →
      ∃ s', SecretsAuthMountDisableRemountUpgradeV0 ctx s meta = Call.returned s' (s', none) ∧
        GoMap.store s "disable_remount" (Iface.bool false) = Outcome.done s' ∧
        GoMap.lookup s' "disable_remount" = some (Iface.bool false)) ∧
    (∀ v, GoMap.lookup s "disable_remount" = some v → v ≠ Iface.nil →
      SecretsAuthMountDisableRemountUpgradeV0 ctx s meta = Call.returned s (s, none)) ∧
    (∀ k, k ≠ "disable_remount" →
      GoMap.lookup (SecretsAuthMountDisableRemountUpgradeV0 ctx s meta).state k =
        GoMap.lookup s k) ∧
    SecretsAuthMountDisableRemountUpgradeV0 ctx (GoMap.alloc []) meta =
      Call.returned (GoMap.alloc [("disable_remount", Iface.bool false)])
        (GoMap.alloc [("disable_remount", Iface.bool false)], none) ∧
    SecretsAuthMountDisableRemountUpgradeV0 ctx
        (GoMap.alloc [("disable_remount", Iface.bool true)]) meta =
      Call.returned (GoMap.alloc [("disable_remount", Iface.bool true)])
        (GoMap.alloc [("disable_remount", Iface.bool true)], none) := by
  obtain ⟨es, hes⟩ := (isNil_false_iff _).1 hal
  subst hes
  refine ⟨?_, ?_, ?_, rfl, rfl⟩
  · intro h
    have hn : (GoMap.index (GoMap.alloc es) FieldDisableRemount).isNil = true :=
      (index_isNil_iff _ _).2 h
    exact ⟨_, upgradeV0_alloc_of_nil ctx es meta hn, rfl, Entries.lookup_store_self _ _ _⟩
  · intro v hv hne
    have hn : (GoMap.index (GoMap.alloc es) FieldDisableRemount).isNil = false := by
      cases hi : (GoMap.index (GoMap.alloc es) FieldDisableRemount).isNil with
      | false => rfl
      | true =>
        rcases (index_isNil_iff _ _).1 hi with h | h
        · rw [show GoMap.lookup (GoMap.alloc es) FieldDisableRemount =
            GoMap.lookup (GoMap.alloc es) "disable_remount" from rfl, hv] at h
          exact Option.noConfusion h
        · rw [show GoMap.lookup (GoMap.alloc es) FieldDisableRemount =
            GoMap.lookup (GoMap.alloc es) "disable_remount" from rfl, hv] at h
          exact absurd (Option.some.inj h) hne
    exact upgradeV0_of_not_nil ctx _ meta hn
  · intro k hk
    cases hn : (GoMap.index (GoMap.alloc es) FieldDisableRemount).isNil with
    | true =>
      rw [upgradeV0_alloc_of_nil ctx es meta hn]
      exact Entries.lookup_store_ne _ _ hk
    | false => rw [upgradeV0_of_not_nil ctx _ meta hn]; rfl

/-- A run of C8: a state whose "disable_remount" is null gets false there and
keeps its "path"; a state with a string there is returned as it is. -/
theorem SecretsAuthMountDisableRemountUpgradeV0_spec_witness :
    (∃ s', SecretsAuthMountDisableRemountUpgradeV0 ⟨false⟩
        (GoMap.alloc [("path", Iface.str "kv"), ("disable_remount", Iface.nil)]) Iface.nil =
          Call.returned s' (s', none) ∧
        GoMap.lookup s' "disable_remount" = some (Iface.bool false)) ∧
    SecretsAuthMountDisableRemountUpgradeV0 ⟨false⟩
        (GoMap.alloc [("disable_remount", Iface.str "yes")]) Iface.nil =
      Call.returned (GoMap.alloc [("disable_remount", Iface.str "yes")])
        (GoMap.alloc [("disable_remount", Iface.str "yes")], none) :=
  ⟨((SecretsAuthMountDisableRemountUpgradeV0_spec ⟨false⟩
      (GoMap.alloc [("path", Iface.str "kv"), ("disable_remount", Iface.nil)]) Iface.nil rfl).1
      (Or.inr rfl)).elim fun s' hs' => ⟨s', hs'.1, hs'.2.2⟩,
   (SecretsAuthMountDisableRemountUpgradeV0_spec ⟨false⟩
      (GoMap.alloc [("disable_remount", Iface.str "yes")]) Iface.nil rfl).2.1
      (Iface.str "yes") rfl (fun e => Iface.noConfusion e)⟩

/-- C9: `SecretsAuthMountDisableRemountUpgradeV0` is idempotent: an upgrade
followed by an upgrade of the state it returned ends as the one upgrade does,
with the same state, returned map and nil error, or with the same panic; so
when the upgrader returns, upgrading the returned state returns the same
again. -/
theorem SecretsAuthMountDisableRemountUpgradeV0_idempotent (ctx ctx2 : Context)
    (s : GoMap Iface) (meta meta2 : Iface) :
    (SecretsAuthMountDisableRemountUpgradeV0 ctx s meta).andThen
        (fun _ v => SecretsAuthMountDisableRemountUpgradeV0 ctx2 v.1 meta2) =
      SecretsAuthMountDisableRemountUpgradeV0 ctx s meta ∧
    (∀ st v, SecretsAuthMountDisableRemountUpgradeV0 ctx s meta = Call.returned st v →
      SecretsAuthMountDisableRemountUpgradeV0 ctx2 v.1 meta2 = Call.returned st v) := by
  have key : ∀ st v, SecretsAuthMountDisableRemountUpgradeV0 ctx s meta = Call.returned st v →
      SecretsAuthMountDisableRemountUpgradeV0 ctx2 v.1 meta2 = Call.returned st v := by
    intro st v h
    cases s with
    | nil => rw [upgradeV0_nil] at h; exact Call.noConfusion h
    | alloc es =>
      cases hn : (GoMap.index (GoMap.alloc es) FieldDisableRemount).isNil with
      | true =>
        rw [upgradeV0_alloc_of_nil ctx es meta hn] at h
        simp only [Call.returned.injEq] at h
        obtain ⟨hst, hv⟩ := h
        subst hst
        subst hv
        exact upgradeV0_of_not_nil ctx2 _ meta2 (index_store_not_nil es FieldDisableRemount)
      | false =>
        rw [upgradeV0_of_not_nil ctx _ meta hn] at h
        simp only [Call.returned.injEq] at h
        obtain ⟨hst, hv⟩ := h
        subst hst
        subst hv
        exact upgradeV0_of_not_nil ctx2 _ meta2 hn
  refine ⟨?_, key⟩
  cases hrun : SecretsAuthMountDisableRemountUpgradeV0 ctx s meta with
  | panicked p st => rfl
  | returned st v =>
    simp only [Call.andThen]
    exact key st v hrun

/-- A run of C9: upgrading the state the upgrader returned for the allocated
empty state returns that state again. -/
theorem SecretsAuthMountDisableRemountUpgradeV0_idempotent_witness :
    SecretsAuthMountDisableRemountUpgradeV0 ⟨true⟩
        (GoMap.alloc [("disable_remount", Iface.bool false)]) Iface.nil =
      Call.returned (GoMap.alloc [("disable_remount", Iface.bool false)])
        (GoMap.alloc [("disable_remount", Iface.bool false)], none) :=
  (SecretsAuthMountDisableRemountUpgradeV0_idempotent ⟨false⟩ ⟨true⟩ (GoMap.alloc [])
    Iface.nil Iface.nil).2 _ _ rfl

/-- C10 fails as stated: on the nil raw state the upgrader does not return: it
panics, so it returns no error value at all. -/
theorem SecretsAuthMountDisableRemountUpgradeV0_fails_on_nil_state :
    (SecretsAuthMountDisableRemountUpgradeV0 ⟨true⟩ GoMap.nil (Iface.str "meta")).isPanic =
      true ∧
    (SecretsAuthMountDisableRemountUpgradeV0 ⟨true⟩ GoMap.nil (Iface.str "meta")).value? =
      none :=
  ⟨rfl, rfl⟩

/-- C10, as the code has it: `SecretsAuthMountDisableRemountUpgradeV0` never
returns an error: for every context and provider metadata it returns the nil
error on every allocated raw state, whatever value "disable_remount" holds,
and the only input on which it fails is the nil raw state, on which it
panics. -/
theorem SecretsAuthMountDisableRemountUpgradeV0_never_fails (ctx : Context)
    (s : GoMap Iface) (meta : Iface) :
    (GoMap.isNil s = false →
      ∃ s', SecretsAuthMountDisableRemountUpgradeV0 ctx s meta = Call.returned s' (s', none)) ∧
    (∀ v, (SecretsAuthMountDisableRemountUpgradeV0 ctx s meta).value? = some v →
      v.2 = none) ∧
    ((SecretsAuthMountDisableRemountUpgradeV0 ctx s meta).isPanic = true ↔ s = GoMap.nil) := by
  cases s with
  | nil =>
    rw [upgradeV0_nil]
    refine ⟨fun h => by simp [GoMap.isNil] at h, ?_, ⟨fun _ => rfl, fun _ => rfl⟩⟩
    intro v hv
    simp [Call.value?] at hv
  | alloc es =>
    cases hn : (GoMap.index (GoMap.alloc es) FieldDisableRemount).isNil with
    | true =>
      rw [upgradeV0_alloc_of_nil ctx es meta hn]
      refine ⟨fun _ => ⟨_, rfl⟩, ?_, ?_⟩
      · intro v hv
        simp only [Call.value?, Option.some.injEq] at hv
        rw [← hv]
      · simp [Call.isPanic]
    | false =>
      rw [upgradeV0_of_not_nil ctx _ meta hn]
      refine ⟨fun _ => ⟨_, rfl⟩, ?_, ?_⟩
      · intro v hv
        simp only [Call.value?, Option.some.injEq] at hv
        rw [← hv]
      · simp [Call.isPanic]

/-- A run of C10: on an allocated state whose "disable_remount" holds a string
the upgrader returns the nil error. -/
theorem SecretsAuthMountDisableRemountUpgradeV0_never_fails_witness :
    ∃ s', SecretsAuthMountDisableRemountUpgradeV0 ⟨false⟩
        (GoMap.alloc [("disable_remount", Iface.str "yes")]) Iface.nil =
      Call.returned s' (s', none) :=
  (SecretsAuthMountDisableRemountUpgradeV0_never_fails ⟨false⟩
    (GoMap.alloc [("disable_remount", Iface.str "yes")]) Iface.nil).1 rfl

/-! ## The namespace diff callback -/

theorem customizeDiff_of_no_change (verbS : Iface → String) (ctx : Context)
    (diff : ResourceDiff) (meta : Meta) (h : diff.HasChange FieldNamespace = false) :
    NamespacePathCustomizeDiffFunc verbS ctx diff meta = Call.returned diff none := by
  simp [NamespacePathCustomizeDiffFunc, h]

theorem customizeDiff_eval (verbS : Iface → String) (ctx : Context) (diff : ResourceDiff)
    (pm : ProviderMeta) (o : String) (n : Iface)
    (hget : diff.GetChange FieldNamespace = (Iface.str o, n)) :
    NamespacePathCustomizeDiffFunc verbS ctx diff (Meta.providerMeta pm) =
      if diff.HasChange FieldNamespace = true ∧ o ≠ "" ∧
          o ≠ pm.GetClient.Namespace ++ "/" ++ sprintS verbS n then
        Call.returned { diff with forceNewCalls := diff.forceNewCalls ++ [FieldNamespace] }
          none
      else Call.returned diff none := by
  cases hc : diff.HasChange FieldNamespace with
  | false => simp [NamespacePathCustomizeDiffFunc, hc]
  | true =>
    by_cases ho : o = ""
    · subst ho
      simp [NamespacePathCustomizeDiffFunc, hc, hget, Iface.eqStr]
    · by_cases hp : o = pm.GetClient.Namespace ++ "/" ++ sprintS verbS n
      · simp [NamespacePathCustomizeDiffFunc, hc, hget, Iface.eqStr, Iface.assertString, ho,
          ← hp]
      · simp [NamespacePathCustomizeDiffFunc, hc, hget, Iface.eqStr, Iface.assertString, ho,
          hp, ResourceDiff.ForceNew]

theorem customizeDiff_calls (verbS : Iface → String) (ctx : Context) (diff : ResourceDiff)
    (meta : Meta) :
    ((NamespacePathCustomizeDiffFunc verbS ctx diff meta).state = diff ∨
      (NamespacePathCustomizeDiffFunc verbS ctx diff meta).state =
        { diff with forceNewCalls := diff.forceNewCalls ++ [FieldNamespace] }) ∧
    (∀ e, (NamespacePathCustomizeDiffFunc verbS ctx diff meta).value? = some e → e = none) := by
  cases hc : diff.HasChange FieldNamespace with
  | false => simp [NamespacePathCustomizeDiffFunc, hc, Call.state, Call.value?]
  | true =>
    rcases hg : diff.GetChange FieldNamespace with ⟨o, n⟩
    cases he : o.eqStr "" with
    | true => simp [NamespacePathCustomizeDiffFunc, hc, hg, he, Call.state, Call.value?]
    | false =>
      cases meta with
      | other v => simp [NamespacePathCustomizeDiffFunc, hc, hg, he, Call.state, Call.value?]
      | providerMeta pm =>
        cases ha : o.assertString with
        | none =>
          simp [NamespacePathCustomizeDiffFunc, hc, hg, he, ha, Call.state, Call.value?]
        | some os =>
          by_cases hp : os = pm.GetClient.Namespace ++ "/" ++ sprintS verbS n
          · simp [NamespacePathCustomizeDiffFunc, hc, hg, he, ha, Call.state, Call.value?,
              ← hp]
          · simp [NamespacePathCustomizeDiffFunc, hc, hg, he, ha, Call.state, Call.value?, hp,
              ResourceDiff.ForceNew]

theorem append_singleton_ne_self {α : Type} (l : List α) (a : α) : l ++ [a] ≠ l := by
  intro h
  have := congrArg List.length h
  simp at this

theorem not_beginsWithSlash_ne (o t : String) (h : beginsWithSlash o = false) :
    o ≠ "/" ++ t := by
  intro e
  subst e
  simp [beginsWithSlash] at h

/-- C11: with string old and new values of "namespace" and a provider context
as metadata, the callback calls `ForceNew` on "namespace" exactly when the
field has a change, the old value is not the empty string, and the old value
differs from parent namespace, "/" and new value put together; in every other
case it leaves the diff as it was.  On every input the callback makes at most
one `ForceNew` call, and only on "namespace". -/
theorem NamespacePathCustomizeDiffFunc_forceNew_iff (verbS : Iface → String)
    (ctx : Context) (diff : ResourceDiff) (pm : ProviderMeta) (o n : String)
    (hget : diff.GetChange "namespace" = (Iface.str o, Iface.str n)) :
    ((NamespacePathCustomizeDiffFunc verbS ctx diff (Meta.providerMeta pm)).state.forceNewCalls =
        diff.forceNewCalls ++ ["namespace"] ↔
      (diff.HasChange "namespace" = true ∧ o ≠ "" ∧
        o ≠ pm.GetClient.Namespace ++ "/" ++ n)) ∧
    (¬ (diff.HasChange "namespace" = true ∧ o ≠ "" ∧
        o ≠ pm.GetClient.Namespace ++ "/" ++ n) →
      (NamespacePathCustomizeDiffFunc verbS ctx diff (Meta.providerMeta pm)).state = diff) ∧
    (∀ (d : ResourceDiff) (meta : Meta),
      (NamespacePathCustomizeDiffFunc verbS ctx d meta).state.forceNewCalls = d.forceNewCalls ∨
      (NamespacePathCustomizeDiffFunc verbS ctx d meta).state.forceNewCalls =
        d.forceNewCalls ++ ["namespace"]) := by
  have hev := customizeDiff_eval verbS ctx diff pm o (Iface.str n) hget
  simp only [sprintS, FieldNamespace] at hev
  refine ⟨?_, ?_, ?_⟩
  · by_cases hc : diff.HasChange "namespace" = true ∧ o ≠ "" ∧
        o ≠ pm.GetClient.Namespace ++ "/" ++ n
    · rw [hev, if_pos hc]
      exact ⟨fun _ => hc, fun _ => rfl⟩
    · rw [hev, if_neg hc]
      exact ⟨fun h => absurd h.symm (append_singleton_ne_self _ _), fun h => absurd h hc⟩
  · intro hc
    rw [hev, if_neg hc]
    rfl
  · intro d meta
    rcases (customizeDiff_calls verbS ctx d meta).1 with h | h
    · left; rw [h]
    · right; rw [h]; rfl

/-- A run of C11: with parent "root", the old value "root/team-a" and the new
value "team-a" make no `ForceNew` call, and the old value "team-a" with the
new value "team-a" makes one. -/
theorem NamespacePathCustomizeDiffFunc_forceNew_iff_witness :
    (NamespacePathCustomizeDiffFunc (fun _ => "") ⟨false⟩
      { hasChange := fun _ => true
        getChange := fun _ => (Iface.str "root/team-a", Iface.str "team-a") }
      (Meta.providerMeta ⟨⟨"root"⟩⟩)).state.forceNewCalls = [] ∧
    (NamespacePathCustomizeDiffFunc (fun _ => "") ⟨false⟩
      { hasChange := fun _ => true
        getChange := fun _ => (Iface.str "team-a", Iface.str "team-a") }
      (Meta.providerMeta ⟨⟨"root"⟩⟩)).state.forceNewCalls = ["namespace"] :=
  ⟨by
    rw [(NamespacePathCustomizeDiffFunc_forceNew_iff (fun _ => "") ⟨false⟩
      { hasChange := fun _ => true
        getChange := fun _ => (Iface.str "root/team-a", Iface.str "team-a") }
      ⟨⟨"root"⟩⟩ "root/team-a" "team-a" rfl).2.1
      (by decide)],
   ((NamespacePathCustomizeDiffFunc_forceNew_iff (fun _ => "") ⟨false⟩
      { hasChange := fun _ => true
        getChange := fun _ => (Iface.str "team-a", Iface.str "team-a") }
      ⟨⟨"root"⟩⟩ "team-a" "team-a" rfl).1).2 (by decide)⟩

/-- C17: when the parent namespace is the empty string, the constructed path
is "/" followed by the new value, so on a change of "namespace" from a
non-empty old value that does not begin with "/" the callback calls `ForceNew`
on "namespace", whatever the new value is, and returns the nil error. -/
theorem NamespacePathCustomizeDiffFunc_empty_parent (verbS : Iface → String)
    (ctx : Context) (diff : ResourceDiff) (pm : ProviderMeta) (o : String) (n : Iface)
    (hparent : pm.GetClient.Namespace = "")
    (hch : diff.HasChange "namespace" = true)
    (hget : diff.GetChange "namespace" = (Iface.str o, n))
    (ho : o ≠ "") (hslash : beginsWithSlash o = false) :
    pm.GetClient.Namespace ++ "/" ++ sprintS verbS n = "/" ++ sprintS verbS n ∧
    o ≠ pm.GetClient.Namespace ++ "/" ++ sprintS verbS n ∧
    NamespacePathCustomizeDiffFunc verbS ctx diff (Meta.providerMeta pm) =
      Call.returned { diff with forceNewCalls := diff.forceNewCalls ++ ["namespace"] }
        none := by
  have hpath : pm.GetClient.Namespace ++ "/" ++ sprintS verbS n = "/" ++ sprintS verbS n := by
    rw [hparent, String.empty_append]
  have hne : o ≠ pm.GetClient.Namespace ++ "/" ++ sprintS verbS n := by
    rw [hpath]
    exact not_beginsWithSlash_ne o _ hslash
  refine ⟨hpath, hne, ?_⟩
  have hev := customizeDiff_eval verbS ctx diff pm o n hget
  simp only [FieldNamespace] at hev
  rw [hev, if_pos ⟨hch, ho, hne⟩]

/-- A run of C17: with an empty parent namespace, a change from "team-a" to
"team-a" forces replacement. -/
theorem NamespacePathCustomizeDiffFunc_empty_parent_witness :
    (NamespacePathCustomizeDiffFunc (fun _ => "") ⟨false⟩
      { hasChange := fun _ => true
        getChange := fun _ => (Iface.str "team-a", Iface.str "team-a") }
      (Meta.providerMeta ⟨⟨""⟩⟩)).state.forceNewCalls = ["namespace"] :=
  congrArg (fun c => c.state.forceNewCalls)
    (NamespacePathCustomizeDiffFunc_empty_parent (fun _ => "") ⟨false⟩
      { hasChange := fun _ => true
        getChange := fun _ => (Iface.str "team-a", Iface.str "team-a") }
      ⟨⟨""⟩⟩ "team-a" (Iface.str "team-a")
      rfl rfl rfl (by decide) (by decide)).2.2

/-! ## The namespace field -/

/-- C13 fails as stated: the nil map does not contain "namespace", and
`MustAddNamespaceSchema` panics on it with the nil-map store. -/
theorem MustAddNamespaceSchema_panics_on_nil :
    "namespace" ∉ GoMap.keys (GoMap.nil : GoMap Schema) ∧
    MustAddNamespaceSchema GoMap.nil =
      Outcome.panicked PanicValue.nilMapAssignment GoMap.nil :=
  ⟨GoMap.not_mem_keys_nil _, rfl⟩

/-- C13, as the code has it: `MustAddNamespaceSchema(d)` panics exactly when
`d` is nil or already has the name "namespace", leaving `d` as it was;
otherwise it returns with `d` extended by the one entry "namespace", whose
definition is the one of `GetNamespaceSchema` (string type, optional,
force-new), every other name reading as before. -/
theorem MustAddNamespaceSchema_spec (d : GoMap Schema) :
    ((MustAddNamespaceSchema d).isPanic = true ↔
      d = GoMap.nil ∨ "namespace" ∈ GoMap.keys d) ∧
    ((MustAddNamespaceSchema d).isPanic = true → (MustAddNamespaceSchema d).state = d) ∧
    ("namespace" ∈ GoMap.keys d →
      MustAddNamespaceSchema d =
        Outcome.panicked (PanicValue.schemaFieldExists "namespace") d) ∧
    (GoMap.isNil d = false → "namespace" ∉ GoMap.keys d →
      ∃ d', MustAddNamespaceSchema d = Outcome.done d' ∧
        GoMap.lookup d' "namespace" = GoMap.lookup GetNamespaceSchema "namespace" ∧
        (∃ fd, GoMap.lookup d' "namespace" = some fd ∧
          fd.Type_ = ValueType.TypeString ∧ fd.Optional = true ∧ fd.Required = false ∧
          fd.ForceNew = true) ∧
        (∀ k, k ≠ "namespace" → GoMap.lookup d' k = GoMap.lookup d k) ∧
        GoMap.keys d' = GoMap.keys d ++ ["namespace"]) := by
  cases d with
  | nil =>
    have hrun : MustAddNamespaceSchema GoMap.nil =
        Outcome.panicked PanicValue.nilMapAssignment GoMap.nil := rfl
    rw [hrun]
    refine ⟨⟨fun _ => Or.inl rfl, fun _ => rfl⟩, fun _ => rfl,
      fun hk => absurd hk (GoMap.not_mem_keys_nil _), fun hal => by simp [GoMap.isNil] at hal⟩
  | alloc es =>
    cases hh : Entries.has es FieldNamespace with
    | true =>
      have hm : "namespace" ∈ GoMap.keys (GoMap.alloc es) :=
        (Entries.has_iff_mem_keys _ _).1 hh
      have hh2 : GoMap.has (GoMap.alloc es) "namespace" = true := hh
      have hrun : MustAddNamespaceSchema (GoMap.alloc es) =
          Outcome.panicked (PanicValue.schemaFieldExists "namespace") (GoMap.alloc es) := by
        simp [MustAddNamespaceSchema, GetNamespaceSchema, GoMap.entries, mustAddSchemaRange,
          mustAddSchema, hh2, FieldNamespace]
      rw [hrun]
      exact ⟨⟨fun _ => Or.inr hm, fun _ => rfl⟩, fun _ => rfl, fun _ => rfl,
        fun _ hn => absurd hm hn⟩
    | false =>
      have hm : "namespace" ∉ GoMap.keys (GoMap.alloc es) :=
        (Entries.has_eq_false_iff _ _).1 hh
      have hh2 : GoMap.has (GoMap.alloc es) FieldNamespace = false := hh
      have hrun : MustAddNamespaceSchema (GoMap.alloc es) =
          Outcome.done (GoMap.alloc (Entries.store es FieldNamespace
            { Type_ := ValueType.TypeString
              Optional := true
              ForceNew := true
              Description := "Target namespace. (requires Enterprise)"
              ValidateFunc := some ValidateNoLeadingTrailingSlashes })) := by
        simp [MustAddNamespaceSchema, GetNamespaceSchema, GoMap.entries, mustAddSchemaRange,
          mustAddSchema, hh2, GoMap.store]
      rw [hrun]
      refine ⟨⟨fun hp => by simp [Outcome.isPanic] at hp, ?_⟩,
        fun hp => by simp [Outcome.isPanic] at hp, fun hk => absurd hk hm,
        fun _ _ => ⟨_, rfl, ?_, ?_, ?_, ?_⟩⟩
      · rintro (hn | hk)
        · exact GoMap.noConfusion hn
        · exact absurd hk hm
      · have h1 : GoMap.lookup (GoMap.alloc (Entries.store es FieldNamespace
            ({ Type_ := ValueType.TypeString
               Optional := true
               ForceNew := true
               Description := "Target namespace. (requires Enterprise)"
               ValidateFunc := some ValidateNoLeadingTrailingSlashes } : Schema)))
            "namespace" = some _ := Entries.lookup_store_self es FieldNamespace _
        rw [h1]
        simp [GetNamespaceSchema, GoMap.lookup, GoMap.entries, Entries.lookup, FieldNamespace]
      · exact ⟨_, Entries.lookup_store_self _ _ _, rfl, rfl, rfl, rfl⟩
      · intro k hk
        exact Entries.lookup_store_ne _ _ hk
      · exact Entries.keys_store_of_not_mem _ _ _ hm

/-- A run of C13: adding the namespace field to a map that has the field
"path" returns; adding it to a map that has "namespace" panics. -/
theorem MustAddNamespaceSchema_spec_witness :
    (∃ d', MustAddNamespaceSchema (GoMap.alloc [("path", {})]) = Outcome.done d' ∧
      GoMap.keys d' = ["path", "namespace"]) ∧
    MustAddNamespaceSchema (GoMap.alloc [("namespace", {})]) =
      Outcome.panicked (PanicValue.schemaFieldExists "namespace")
        (GoMap.alloc [("namespace", {})]) :=
  ⟨((MustAddNamespaceSchema_spec (GoMap.alloc [("path", {})])).2.2.2 rfl (by decide)).elim
      fun d' hd' => ⟨d', hd'.1, hd'.2.2.2.2⟩,
   (MustAddNamespaceSchema_spec (GoMap.alloc [("namespace", {})])).2.2.1 (by decide)⟩

/-! ## Order of the contributions, and the state at a panic -/

/-- C14: for every resource and any two orderings of the same contribution
entries, `MustAddSchema` panics under both orderings or returns under both,
and when it returns the two field maps read the same at every name and hold
the same entries, the rest of the resource being the same. -/
theorem MustAddSchema_order_irrelevant (r : Resource) (m1 m2 : GoMap Schema)
    (h : List.Perm (GoMap.entries m1) (GoMap.entries m2)) :
    (MustAddSchema r m1).isPanic = (MustAddSchema r m2).isPanic ∧
    (∀ r1 r2, MustAddSchema r m1 = Outcome.done r1 → MustAddSchema r m2 = Outcome.done r2 →
      (∀ k, GoMap.lookup r1.Schema k = GoMap.lookup r2.Schema k) ∧
      List.Perm (GoMap.entries r1.Schema) (GoMap.entries r2.Schema) ∧
      GoMap.isNil r1.Schema = GoMap.isNil r2.Schema ∧
      r1 = { r2 with Schema := r1.Schema }) := by
  have hkeys : List.Perm (GoMap.keys m1) (GoMap.keys m2) := h.map Prod.fst
  constructor
  · have e : ((MustAddSchema r m1).isPanic = false ↔ (MustAddSchema r m2).isPanic = false) := by
      rw [MustAddSchema_returns_iff, MustAddSchema_returns_iff, hkeys.nodup_iff]
      constructor
      · rintro ⟨hnd, hd, hn⟩
        exact ⟨hnd, fun k hk => hd k (hkeys.mem_iff.2 hk),
          fun hnil => List.Perm.eq_nil (hn hnil ▸ h.symm)⟩
      · rintro ⟨hnd, hd, hn⟩
        exact ⟨hnd, fun k hk => hd k (hkeys.mem_iff.1 hk),
          fun hnil => List.Perm.eq_nil (hn hnil ▸ h)⟩
    cases h1 : (MustAddSchema r m1).isPanic <;>
      cases h2 : (MustAddSchema r m2).isPanic <;>
      simp_all
  · intro r1 r2 h1 h2
    obtain ⟨hf1, hnd1, -, hnew1, hold1, -, hent1, hnil1⟩ := MustAddSchema_done h1
    obtain ⟨hf2, -, -, hnew2, hold2, -, hent2, hnil2⟩ := MustAddSchema_done h2
    refine ⟨?_, ?_, ?_, ?_⟩
    · intro k
      have hlk : GoMap.lookup m1 k = GoMap.lookup m2 k := Entries.lookup_perm h hnd1 k
      cases hm : GoMap.lookup m1 k with
      | some v =>
        rw [hnew1 k v hm, hnew2 k v (hlk ▸ hm)]
      | none =>
        have hm2 : GoMap.lookup m2 k = none := hlk ▸ hm
        rw [hold1 k ((GoMap.lookup_none_iff_not_mem m1 k).1 hm),
          hold2 k ((GoMap.lookup_none_iff_not_mem m2 k).1 hm2)]
    · rw [hent1, hent2]
      exact h.append_left _
    · rw [hnil1, hnil2]
    · rw [hf2]
      exact hf1

/-- A run of C14: merging "path" and "mount" in either order into a resource
with the field "type" returns under both orders. -/
theorem MustAddSchema_order_irrelevant_witness :
    List.Perm [("path", ({} : Schema)), ("mount", { Optional := true })]
      [("mount", { Optional := true }), ("path", {})] ∧
    (MustAddSchema { Schema := GoMap.alloc [("type", {})] }
        (GoMap.alloc [("path", {}), ("mount", { Optional := true })])).isPanic =
      (MustAddSchema { Schema := GoMap.alloc [("type", {})] }
        (GoMap.alloc [("mount", { Optional := true }), ("path", {})])).isPanic :=
  ⟨List.Perm.swap _ _ _,
   (MustAddSchema_order_irrelevant { Schema := GoMap.alloc [("type", {})] }
      (GoMap.alloc [("path", {}), ("mount", { Optional := true })])
      (GoMap.alloc [("mount", { Optional := true }), ("path", {})])
      (List.Perm.swap _ _ _)).1⟩

/-- C15: when `MustAddSchema` panics on a colliding name, the contributions
split into the entries visited before the colliding one, the colliding entry,
and the rest; the panic names the colliding field, which the resource had
before the call; the resource is left as the merge of the entries visited
before would leave it: every entry the field map had, the colliding name
included, is still there with its definition, and every other entry is one of
those visited before.  The only other panic is the store into a nil field map,
which leaves the resource as it was. -/
theorem MustAddSchema_panic_frame (r st : Resource) (m : GoMap Schema) (p : PanicValue)
    (hm : GoMap.WF m) (h : MustAddSchema r m = Outcome.panicked p st) :
    (p = PanicValue.nilMapAssignment ∧ r.Schema = GoMap.nil ∧ st = r) ∨
    ∃ pre k s post, GoMap.entries m = pre ++ (k, s) :: post ∧
      p = PanicValue.schemaFieldExists k ∧
      MustAddSchema r (GoMap.alloc pre) = Outcome.done st ∧
      k ∈ GoMap.keys r.Schema ∧
      GoMap.lookup st.Schema k = GoMap.lookup r.Schema k ∧
      (∀ k2 v, GoMap.lookup r.Schema k2 = some v → GoMap.lookup st.Schema k2 = some v) ∧
      (∀ k2 v, GoMap.lookup st.Schema k2 = some v →
        GoMap.lookup r.Schema k2 = some v ∨ GoMap.lookup (GoMap.alloc pre) k2 = some v) ∧
      st = { r with Schema := st.Schema } := by
  obtain ⟨hframe, hcase⟩ := MustAddSchema_panicked h
  rcases hcase with ⟨hp, hn, hst, -⟩ | ⟨pre, k, s, post, -, hsplit, hp, hpre, -, hkd⟩
  · exact Or.inl ⟨hp, hn, hst⟩
  · right
    obtain ⟨-, -, hdisj, hnew, hold, -, -, -⟩ := MustAddSchema_done hpre
    have hkr : k ∈ GoMap.keys r.Schema := hkd hm
    have hkpre : k ∉ GoMap.keys (GoMap.alloc pre) := fun hmem => hdisj k hmem hkr
    refine ⟨pre, k, s, post, hsplit, hp, hpre, hkr, hold k hkpre, ?_, ?_, hframe⟩
    · intro k3 v hk3
      have hn : k3 ∉ GoMap.keys (GoMap.alloc pre) :=
        fun hmem => hdisj k3 hmem (GoMap.mem_keys_of_lookup hk3)
      rw [hold k3 hn, hk3]
    · intro k3 v hk3
      cases hl : GoMap.lookup (GoMap.alloc pre) k3 with
      | some w =>
        right
        rw [hnew k3 w hl] at hk3
        exact hk3
      | none =>
        left
        rw [hold k3 ((GoMap.lookup_none_iff_not_mem _ k3).1 hl)] at hk3
        exact hk3

/-- A run of C15: merging "mount" and then "path" into a resource that has
"path" panics on "path" after "mount" was added, and "path" keeps its
definition. -/
theorem MustAddSchema_panic_frame_witness :
    ∃ pre k s post,
      [("mount", ({} : Schema)), ("path", { Optional := true })] = pre ++ (k, s) :: post ∧
      PanicValue.schemaFieldExists "path" = PanicValue.schemaFieldExists k ∧
      MustAddSchema { Schema := GoMap.alloc [("path", { Required := true })] }
          (GoMap.alloc pre) =
        Outcome.done
          { Schema := GoMap.alloc [("path", { Required := true }), ("mount", {})] } :=
  ((MustAddSchema_panic_frame { Schema := GoMap.alloc [("path", { Required := true })] }
      { Schema := GoMap.alloc [("path", { Required := true }), ("mount", {})] }
      (GoMap.alloc [("mount", {}), ("path", { Optional := true })])
      (PanicValue.schemaFieldExists "path") (by decide) rfl).resolve_left
      (fun hn => PanicValue.noConfusion hn.1)).elim
    fun pre h1 => h1.elim fun k h2 => h2.elim fun s h3 => h3.elim fun post h4 =>
      ⟨pre, k, s, post, h4.1, h4.2.1, h4.2.2.1⟩


end Provider
